import Mathlib

/-!
Shallow embedding of the DCAT-OWL-Adapter catalog engine
(src/specific-provisioner/src/DCAT.py, class DCATCatalog).

The rdflib Graph is modelled as a list of triples with set semantics:
rdflib stores triples in a set-like store, so adding a triple that is
already present is a no-op; iteration order is insertion order, which the
list models by appending new triples at the end.  Blank nodes, which
rdflib creates with globally fresh labels, are modelled as natural numbers
drawn from a counter carried in the catalog state.  Literals carry their
lexical value and an optional datatype, mirroring rdflib Literal equality.
-/

/-- An RDF node: a URI reference, a blank node, or a literal with an
optional datatype. -/
inductive Node where
  | uri : String → Node
  | bnode : Nat → Node
  | lit : String → Option String → Node
deriving DecidableEq, Repr

/-- An RDF triple (subject, predicate, object). -/
structure Triple where
  s : Node
  p : Node
  o : Node
deriving DecidableEq, Repr

/-- The SPARQL str() form of a node, as produced by formatting an rdflib
term with an f-string: the URI text for a URIRef, the lexical value for a
Literal, and the generated label for a BNode. -/
def Node.strForm : Node → String
  | .uri s => s
  | .bnode n => "N" ++ toString n
  | .lit v _ => v

-- Namespace constants from DCAT.py setup_namespaces and the rdflib
-- standard namespaces used by the module.

def DATASET_NS : String := "http://data.example.com/dataset/"
def FIELD_NS : String := "http://data.example.com/fields/"
def FIBO_NS : String :=
  "https://spec.edmcouncil.org/fibo/ontology/master/2020Q1/prod.fibo-quickstart.ttl#"
def EX_NS : String := "http://example.org/terms#"

def rdfType : String := "http://www.w3.org/1999/02/22-rdf-syntax-ns#type"
def dcatCatalogClass : String := "http://www.w3.org/ns/dcat#Catalog"
def dcatDatasetClass : String := "http://www.w3.org/ns/dcat#Dataset"
def dcatDatasetPred : String := "http://www.w3.org/ns/dcat#dataset"
def dcatTheme : String := "http://www.w3.org/ns/dcat#theme"
def dcatKeyword : String := "http://www.w3.org/ns/dcat#keyword"
def dctTitle : String := "http://purl.org/dc/terms/title"
def dctDescription : String := "http://purl.org/dc/terms/description"
def dctIssued : String := "http://purl.org/dc/terms/issued"
def rdfsSeeAlso : String := "http://www.w3.org/2000/01/rdf-schema#seeAlso"
def rdfsLabel : String := "http://www.w3.org/2000/01/rdf-schema#label"
def rdfsComment : String := "http://www.w3.org/2000/01/rdf-schema#comment"
def skosConcept : String := "http://www.w3.org/2004/02/skos/core#Concept"
def skosPrefLabel : String := "http://www.w3.org/2004/02/skos/core#prefLabel"
def owlClass : String := "http://www.w3.org/2002/07/owl#Class"
def xsdDate : String := "http://www.w3.org/2001/XMLSchema#date"
def fieldClass : String := FIELD_NS ++ "Field"
def fieldHasField : String := FIELD_NS ++ "hasField"
def fieldName : String := FIELD_NS ++ "fieldName"
def fieldType : String := FIELD_NS ++ "fieldType"
def fieldDescription : String := FIELD_NS ++ "fieldDescription"
def fieldHasBusinessTerm : String := FIELD_NS ++ "hasBusinessTerm"
def exHasForeignKeyTo : String := EX_NS ++ "hasForeignKeyTo"

/-- Graph.add of rdflib: set semantics, appended at the end of the
insertion order when the triple is not yet present. -/
def addT (g : List Triple) (t : Triple) : List Triple :=
  if t ∈ g then g else g ++ [t]

/-- Python truthiness of an optional string argument: None and the empty
string are falsy (the guards in add_dataset and
add_foreign_key_relationship are plain `if value:` tests). -/
def truthy (x : Option String) : Bool :=
  decide (x.getD "" ≠ "")

/-- The catalog state: the rdflib graph, the blank-node freshness counter,
and the catalog URI fixed by the constructor. -/
structure DCATCatalog where
  g : List Triple
  nextB : Nat
  catalog_uri : String
deriving Repr

/-- self.catalog, a URIRef built from the constructor argument. -/
def DCATCatalog.catalog (st : DCATCatalog) : Node := Node.uri st.catalog_uri

/-- URIRef(self.DATASET_NS[identifier]). -/
def datasetURI (identifier : String) : Node := Node.uri (DATASET_NS ++ identifier)

/-- A field dictionary of a provisioning request: keys name and type are
required, description and business_terms are optional keys. -/
structure FieldSpec where
  name : String
  type : String
  description : Option String
  business_terms : Option (List String)
deriving DecidableEq, Repr

/-- The SPARQL query of is_business_term_in_fibo over a graph: all triples
whose predicate is rdfs:label and whose object has str() form equal to the
interpolated term, projected to the str() form of the subject.  The query
has no type constraint on the subject. -/
def findLabelMatches (g : List Triple) (term : String) : List String :=
  (g.filter (fun t => decide (t.p = Node.uri rdfsLabel ∧ t.o.strForm = term))).map
    (fun t => t.s.strForm)

/-- DCATCatalog.is_business_term_in_fibo. -/
def is_business_term_in_fibo (st : DCATCatalog) (term : String) : List String :=
  findLabelMatches st.g term

/-- DCATCatalog.dataset_exists: the ASK query with ?dataset bound to the
dataset URI holds exactly when the typing triple is in the graph. -/
def dataset_exists (st : DCATCatalog) (identifier : String) : Bool :=
  decide ((⟨datasetURI identifier, Node.uri rdfType, Node.uri dcatDatasetClass⟩ : Triple) ∈ st.g)

/-- The objects of (dataset, field:hasField, ·) in graph order, as
computed by self.g.objects(dataset, self.FIELD_NS.hasField). -/
def fieldsOf (g : List Triple) (dataset : Node) : List Node :=
  (g.filter (fun t => decide (t.s = dataset ∧ t.p = Node.uri fieldHasField))).map Triple.o

/-- DCATCatalog.delete_dataset, as the sequence of removals in the source:
field-node triples, hasField edges, seeAlso edges (one per business-term
object), all remaining dataset-subject triples, and the catalog edge. -/
def delete_dataset (st : DCATCatalog) (identifier : String) : DCATCatalog :=
  let dataset := datasetURI identifier
  let fields := fieldsOf st.g dataset
  let g1 := st.g.filter (fun t => decide (t.s ∉ fields))
  let g2 := g1.filter (fun t => decide (¬(t.s = dataset ∧ t.p = Node.uri fieldHasField)))
  let bts := (g2.filter (fun t => decide (t.s = dataset ∧ t.p = Node.uri rdfsSeeAlso))).map Triple.o
  let g3 := g2.filter (fun t => decide (¬(t.s = dataset ∧ t.p = Node.uri rdfsSeeAlso ∧ t.o ∈ bts)))
  let g4 := g3.filter (fun t => decide (t.s ≠ dataset))
  let g5 := g4.filter (fun t => decide (t ≠ ⟨st.catalog, Node.uri dcatDatasetPred, dataset⟩))
  { st with g := g5 }

/-- The keyword loop of add_dataset. -/
def addKeywords (g : List Triple) (dataset : Node) (keywords : List String) : List Triple :=
  keywords.foldl (fun g k => addT g ⟨dataset, Node.uri dcatKeyword, Node.lit k none⟩) g

/-- One iteration of the dataset-level business_terms loop: the term URI
is URIRef(self.FIBO_NS[term]), i.e. the namespace text concatenated with
the raw term string, linked unconditionally and typed as owl:Class. -/
def termStep (g : List Triple) (dataset : Node) (term : String) : List Triple :=
  let term_uri := Node.uri (FIBO_NS ++ term)
  addT (addT g ⟨dataset, Node.uri rdfsSeeAlso, term_uri⟩)
    ⟨term_uri, Node.uri rdfType, Node.uri owlClass⟩

/-- The dataset-level business_terms loop of add_dataset. -/
def addBusinessTerms (g : List Triple) (dataset : Node) (terms : List String) : List Triple :=
  terms.foldl (fun g term => termStep g dataset term) g

/-- One iteration of the per-field business_terms loop: the label is
resolved against the current graph; on at least one match the first match
is rewrapped as URIRef(self.FIBO_NS[matches[0]]) — the namespace text
concatenated with the already-absolute matched URI — and linked; on zero
matches nothing is written. -/
def btStep (g : List Triple) (field_node : Node) (bt : String) : List Triple :=
  match findLabelMatches g bt with
  | [] => g
  | m :: _ =>
    let bt_uri := Node.uri (FIBO_NS ++ m)
    addT (addT g ⟨field_node, Node.uri fieldHasBusinessTerm, bt_uri⟩)
      ⟨bt_uri, Node.uri rdfType, Node.uri owlClass⟩

/-- The per-field business_terms loop of add_dataset. -/
def addFieldBTs (g : List Triple) (field_node : Node) (bts : List String) : List Triple :=
  bts.foldl (fun g bt => btStep g field_node bt) g

/-- One iteration of the fields loop of add_dataset, with b the blank node
allocated for the field. -/
def addField (g : List Triple) (dataset : Node) (b : Nat) (f : FieldSpec) : List Triple :=
  let field_node := Node.bnode b
  let g := addT g ⟨field_node, Node.uri rdfType, Node.uri fieldClass⟩
  let g := addT g ⟨field_node, Node.uri fieldName, Node.lit f.name none⟩
  let g := addT g ⟨field_node, Node.uri fieldType, Node.lit f.type none⟩
  let g := match f.description with
    | some d => addT g ⟨field_node, Node.uri fieldDescription, Node.lit d none⟩
    | none => g
  let g := match f.business_terms with
    | some bts => addFieldBTs g field_node bts
    | none => g
  addT g ⟨dataset, Node.uri fieldHasField, field_node⟩

/-- The fields loop of add_dataset, threading the blank-node counter. -/
def addFields (g : List Triple) (dataset : Node) (b : Nat) (fs : List FieldSpec) :
    List Triple × Nat :=
  fs.foldl (fun gb f => (addField gb.1 dataset gb.2 f, gb.2 + 1)) (g, b)

/-- The theme block of add_dataset: on a truthy theme a fresh blank
concept node is created, labelled, and linked; the counter advances. -/
def addThemePhase (g : List Triple) (dataset : Node) (c : Nat) (theme : Option String) :
    List Triple × Nat :=
  if truthy theme then
    let theme_node := Node.bnode c
    let g := addT g ⟨theme_node, Node.uri rdfType, Node.uri skosConcept⟩
    let g := addT g ⟨theme_node, Node.uri skosPrefLabel, Node.lit (theme.getD "") none⟩
    (addT g ⟨dataset, Node.uri dcatTheme, theme_node⟩, c + 1)
  else (g, c)

/-- The issued block of add_dataset: a truthy issued date is stored as an
xsd:date typed literal. -/
def addIssuedPhase (g : List Triple) (dataset : Node) (issued : Option String) : List Triple :=
  if truthy issued then
    addT g ⟨dataset, Node.uri dctIssued, Node.lit (issued.getD "") (some xsdDate)⟩
  else g

/-- The write phase of add_dataset: everything after the existence check. -/
def add_dataset_body (st : DCATCatalog) (identifier title description : String)
    (theme : Option String) (keywords : List String) (issued : Option String)
    (business_terms : List String) (fields : List FieldSpec) : DCATCatalog × Bool :=
  let dataset := datasetURI identifier
  let g := addT st.g ⟨dataset, Node.uri rdfType, Node.uri dcatDatasetClass⟩
  let g := addT g ⟨dataset, Node.uri dctTitle, Node.lit title none⟩
  let g := addT g ⟨dataset, Node.uri dctDescription, Node.lit description none⟩
  let gb := addThemePhase g dataset st.nextB theme
  let g := addKeywords gb.1 dataset keywords
  let g := addIssuedPhase g dataset issued
  let g := addBusinessTerms g dataset business_terms
  let gb2 := addFields g dataset gb.2 fields
  let g := addT gb2.1 ⟨st.catalog, Node.uri dcatDatasetPred, dataset⟩
  ({ st with g := g, nextB := gb2.2 }, true)

/-- DCATCatalog.add_dataset: an already-registered identifier is first
fully deleted, then the new facts are written. -/
def add_dataset (st : DCATCatalog) (identifier title description : String)
    (theme : Option String) (keywords : List String) (issued : Option String)
    (business_terms : List String) (fields : List FieldSpec) : DCATCatalog × Bool :=
  let st := if dataset_exists st identifier then delete_dataset st identifier else st
  add_dataset_body st identifier title description theme keywords issued business_terms fields

/-- DCATCatalog.add_foreign_key_relationship: raises ValueError before any
write when either dataset is missing; otherwise adds the foreign-key edge
and, when a description is given, a comment literal on the source. -/
def add_foreign_key_relationship (st : DCATCatalog) (from_dataset to_dataset : String)
    (description : Option String) : DCATCatalog × Except String Bool :=
  if !(dataset_exists st from_dataset) || !(dataset_exists st to_dataset) then
    (st, Except.error "One or both datasets do not exist.")
  else
    let from_uri := datasetURI from_dataset
    let to_uri := datasetURI to_dataset
    let g := addT st.g ⟨from_uri, Node.uri exHasForeignKeyTo, to_uri⟩
    let g := if truthy description then
        addT g ⟨from_uri, Node.uri rdfsComment, Node.lit (description.getD "") none⟩
      else g
    ({ st with g := g }, Except.ok true)

/-- DCATCatalog.serialize_catalog: the format and indent parameters are
ignored; the graph is always serialized as json-ld with indent 2 and the
text is parsed into a structured document.  The store serializer and the
JSON parser are external library primitives and are taken as arguments. -/
def serialize_catalog {α : Type} (ser : List Triple → String → Nat → String)
    (loads : String → α) (st : DCATCatalog) (format : String) (indent : Nat) : α :=
  loads (ser st.g "json-ld" 2)

/-- DCATCatalog.load_ontology_into_graph: parsing adds every triple of the
document into the graph. -/
def load_ontology_into_graph (st : DCATCatalog) (triples : List Triple) : DCATCatalog :=
  { st with g := triples.foldl addT st.g }

/-- DCATCatalog.__init__ with the ontology download replaced by its parsed
triples: the catalog node facts are written, then the ontology is merged. -/
def initCatalog (catalog_uri : String) (ontology : List Triple) : DCATCatalog :=
  let c := Node.uri catalog_uri
  let g := addT [] ⟨c, Node.uri rdfType, Node.uri dcatCatalogClass⟩
  let g := addT g ⟨c, Node.uri dctTitle, Node.lit "Main Data Catalog" none⟩
  let g := addT g ⟨c, Node.uri dctDescription,
    Node.lit "This is the main data catalog for our organization" none⟩
  load_ontology_into_graph { g := g, nextB := 0, catalog_uri := catalog_uri } ontology

/-- Renaming of blank nodes that shifts every blank-node index by δ and
fixes URIs and literals. -/
def shiftNode (δ : Nat) : Node → Node
  | .uri s => .uri s
  | .bnode n => .bnode (n + δ)
  | .lit v d => .lit v d

/-- The triple-wise extension of the blank-node renaming. -/
def shiftTriple (δ : Nat) (t : Triple) : Triple :=
  ⟨shiftNode δ t.s, shiftNode δ t.p, shiftNode δ t.o⟩

/-- The subtree of a dataset in a store: all triples whose subject is the
dataset node or one of its field nodes (the objects of its hasField
edges).  Keyword literals, reference edges and attributes all have the
dataset node as subject, so they are included. -/
def subtreeTriples (st : DCATCatalog) (identifier : String) : List Triple :=
  st.g.filter (fun t =>
    decide (t.s = datasetURI identifier ∨ t.s ∈ fieldsOf st.g (datasetURI identifier)))

/-- The sublist of rdfs:label triples of a graph, in graph order: the
part of the store that is_business_term_in_fibo queries. -/
def labelView (g : List Triple) : List Triple :=
  g.filter (fun t => decide (t.p = Node.uri rdfsLabel))

/-- True when every blank-node index in the node is below c. -/
def nodeBelow (c : Nat) : Node → Bool
  | .uri _ => true
  | .bnode n => decide (n < c)
  | .lit _ _ => true

/-- True when every blank-node index in the triple is below c. -/
def tripleBelow (c : Nat) (t : Triple) : Bool :=
  nodeBelow c t.s && nodeBelow c t.p && nodeBelow c t.o

/-- True when every blank-node index in the graph is below c: the
freshness invariant of the blank-node counter. -/
def graphBelow (c : Nat) (g : List Triple) : Bool :=
  g.all (tripleBelow c)

/-- Modelled from the spec: a node is ontology-typed when the store types
it as an ontology Class (the spec describes BusinessTerm nodes as nodes
of type Class from the ontology namespace).  This is the spec-side
reading of the type restriction that the claim about findByExactLabel
attributes to the query; the source query has no such restriction. -/
def specOntologyTyped (g : List Triple) (n : Node) : Bool :=
  decide ((⟨n, Node.uri rdfType, Node.uri owlClass⟩ : Triple) ∈ g)

-- Concrete stores used by the concrete theorems and witnesses below.

/-- A one-triple ontology labelling the term URI T1 with "Legal Entity". -/
def ontT1 : List Triple :=
  [⟨Node.uri "http://example.org/T1", Node.uri rdfsLabel, Node.lit "Legal Entity" none⟩]

/-- A catalog freshly initialized with the one-term ontology. -/
def catT1 : DCATCatalog :=
  initCatalog "http://data.example.com/catalog/main-catalog" ontT1

/-- The order_id field of the spec scenario: no business terms. -/
def fOrderId : FieldSpec := ⟨"order_id", "string", none, none⟩

/-- The customer field of the spec scenario: one business-term label that
resolves in the loaded ontology. -/
def fCustomer : FieldSpec := ⟨"customer", "string", none, some ["Legal Entity"]⟩

/-- The spec scenario store: the orders dataset upserted into catT1. -/
def stOrders : DCATCatalog :=
  (add_dataset catT1 "orders" "Orders" "Order records" none [] none [] [fOrderId, fCustomer]).1

/-- A dataset with a theme, upserted once. -/
def stTheme : DCATCatalog :=
  (add_dataset catT1 "d" "t" "de" (some "Th") [] none [] []).1

/-- The same dataset payload upserted a second time over stTheme. -/
def stTheme2 : DCATCatalog :=
  (add_dataset stTheme "d" "t" "de" (some "Th") [] none [] []).1

/-- A dataset registered with the same keyword appearing twice in the
keyword sequence. -/
def stDup : DCATCatalog :=
  (add_dataset catT1 "d" "t" "de" none ["k", "k"] none [] []).1

/-- A store with one dataset a. -/
def stA : DCATCatalog := (add_dataset catT1 "a" "ta" "da" none [] none [] []).1

/-- A store with two datasets a and b. -/
def stAB : DCATCatalog := (add_dataset stA "b" "tb" "db" none [] none [] []).1

/-- stAB after one foreign-key call from a to b. -/
def stFK1 : DCATCatalog := (add_foreign_key_relationship stAB "a" "b" none).1

/-- stFK1 after a second identical foreign-key call. -/
def stFK2 : DCATCatalog := (add_foreign_key_relationship stFK1 "a" "b" none).1

/-- A store whose only labelled node is typed dcat:Dataset, not an
ontology Class: the label query still returns it. -/
def stLbl : DCATCatalog :=
  { g := [⟨Node.uri (DATASET_NS ++ "foo"), Node.uri rdfType, Node.uri dcatDatasetClass⟩,
          ⟨Node.uri (DATASET_NS ++ "foo"), Node.uri rdfsLabel, Node.lit "X" none⟩],
    nextB := 0,
    catalog_uri := "http://data.example.com/catalog/main-catalog" }

/-- The subtree predicate of a dataset node D relative to a list FF of
field nodes: triples whose subject is D or a member of FF. -/
def subP (FF : List Node) (D : Node) (t : Triple) : Bool :=
  decide (t.s = D ∨ t.s ∈ FF)

/-- The rdfs:label-triple predicate. -/
def labP (t : Triple) : Bool :=
  decide (t.p = Node.uri rdfsLabel)

/-- The hasField-edge predicate of a dataset node D. -/
def hfP (D : Node) (t : Triple) : Bool :=
  decide (t.s = D ∧ t.p = Node.uri fieldHasField)

/-- The simulation relation between the stores of two runs of the write
phase of add_dataset whose blank-node counters are δ apart: the subtree
parts correspond under the δ blank-node renaming (conditionally on the
field-node lists corresponding), the rdfs:label parts are equal (the
resolver sees the same labels), and the hasField edges correspond. -/
def SimR (D : Node) (δ : Nat) (FF₁ FF₂ : List Node) (h₁ h₂ : List Triple) : Prop :=
  (FF₂ = FF₁.map (shiftNode δ) →
    h₂.filter (subP FF₂ D) = (h₁.filter (subP FF₁ D)).map (shiftTriple δ)) ∧
  h₂.filter labP = h₁.filter labP ∧
  h₂.filter (hfP D) = (h₁.filter (hfP D)).map (shiftTriple δ)

-- Basic lemmas about the set-semantics add and filters.

theorem mem_addT {g : List Triple} {t a : Triple} : a ∈ addT g t ↔ a ∈ g ∨ a = t := by
  by_cases h : t ∈ g
  · simp only [addT, if_pos h]
    exact ⟨Or.inl, fun hc => hc.elim id (fun e => e ▸ h)⟩
  · simp [addT, if_neg h, List.mem_append]

theorem mem_addT_self {g : List Triple} {t : Triple} : t ∈ addT g t :=
  mem_addT.mpr (Or.inr rfl)

theorem mem_addT_of_mem {g : List Triple} {t a : Triple} (h : a ∈ g) : a ∈ addT g t :=
  mem_addT.mpr (Or.inl h)

theorem filter_addT_neg {g : List Triple} {t : Triple} {φ : Triple → Bool} (h : φ t = false) :
    (addT g t).filter φ = g.filter φ := by
  by_cases hm : t ∈ g
  · simp [addT, hm]
  · simp [addT, hm, List.filter_append, h]

theorem filter_addT_pos {g : List Triple} {t : Triple} {φ : Triple → Bool} (h : φ t = true) :
    (addT g t).filter φ = addT (g.filter φ) t := by
  by_cases hm : t ∈ g
  · have ht : t ∈ g.filter φ := List.mem_filter.mpr ⟨hm, h⟩
    simp [addT, hm, ht]
  · have ht : t ∉ g.filter φ := fun hc => hm (List.mem_filter.mp hc).1
    simp [addT, hm, ht, List.filter_append, h]

theorem nodup_addT {g : List Triple} {t : Triple} (h : g.Nodup) : (addT g t).Nodup := by
  by_cases hm : t ∈ g
  · simpa [addT, hm] using h
  · rw [addT, if_neg hm]
    refine List.nodup_append.mpr ⟨h, List.nodup_singleton t, ?_⟩
    intro a ha hat
    rw [List.mem_singleton] at hat
    exact hm (hat ▸ ha)

theorem shiftNode_injective (δ : Nat) : Function.Injective (shiftNode δ) := by
  intro a b h
  cases a <;> cases b <;> simp [shiftNode] at h <;> simp [h]

theorem shiftTriple_injective (δ : Nat) : Function.Injective (shiftTriple δ) := by
  intro a b h
  simp only [shiftTriple, Triple.mk.injEq] at h
  cases a; cases b
  simp only [Triple.mk.injEq]
  exact ⟨shiftNode_injective δ h.1, shiftNode_injective δ h.2.1, shiftNode_injective δ h.2.2⟩

theorem addT_map {f : Triple → Triple} (hf : Function.Injective f) (g : List Triple)
    (t : Triple) : addT (g.map f) (f t) = (addT g t).map f := by
  by_cases hm : t ∈ g
  · have : f t ∈ g.map f := List.mem_map_of_mem f hm
    simp [addT, hm, this]
  · have : f t ∉ g.map f := by
      intro hc
      obtain ⟨a, ha, hfa⟩ := List.mem_map.mp hc
      exact hm (hf hfa ▸ ha)
    simp [addT, hm, this]

-- Characterization of delete_dataset: a triple survives exactly when its
-- subject is neither the dataset node nor one of its field nodes and it
-- is not the catalog-to-dataset edge.

theorem mem_delete_dataset {st : DCATCatalog} {identifier : String} {t : Triple} :
    t ∈ (delete_dataset st identifier).g ↔
      t ∈ st.g ∧ t.s ≠ datasetURI identifier ∧
        t.s ∉ fieldsOf st.g (datasetURI identifier) ∧
        t ≠ ⟨st.catalog, Node.uri dcatDatasetPred, datasetURI identifier⟩ := by
  simp only [delete_dataset, List.mem_filter, decide_eq_true_eq]
  constructor
  · rintro ⟨⟨⟨⟨⟨h1, h2⟩, _⟩, _⟩, h5⟩, h6⟩
    exact ⟨h1, h5, h2, h6⟩
  · rintro ⟨h1, h2, h3, h4⟩
    refine ⟨⟨⟨⟨⟨h1, h3⟩, ?_⟩, ?_⟩, h2⟩, h4⟩
    · rintro ⟨hs, -⟩
      exact h2 hs
    · rintro ⟨hs, -⟩
      exact h2 hs

/-- Claim C10: delete_dataset removes only triples whose subject is the
dataset node or one of its owned field nodes, plus the catalog's
hasDataset edge (first conjunct: the exact frame of the operation); in
particular an incoming hasForeignKeyTo edge from another dataset to the
deleted one survives, so the store may keep foreign-key edges whose
target dataset no longer exists (second conjunct). -/
theorem claim_C10_delete_frame (st : DCATCatalog) (identifier : String) :
    (∀ t : Triple, t ∈ (delete_dataset st identifier).g ↔
      t ∈ st.g ∧ t.s ≠ datasetURI identifier ∧
        t.s ∉ fieldsOf st.g (datasetURI identifier) ∧
        t ≠ ⟨st.catalog, Node.uri dcatDatasetPred, datasetURI identifier⟩) ∧
    (∀ src : Node, src ≠ datasetURI identifier →
      src ∉ fieldsOf st.g (datasetURI identifier) →
      (⟨src, Node.uri exHasForeignKeyTo, datasetURI identifier⟩ : Triple) ∈ st.g →
      (⟨src, Node.uri exHasForeignKeyTo, datasetURI identifier⟩ : Triple) ∈
        (delete_dataset st identifier).g) := by
  refine ⟨fun t => mem_delete_dataset, fun src h1 h2 h3 => ?_⟩
  refine mem_delete_dataset.mpr ⟨h3, h1, h2, ?_⟩
  intro hc
  have hp := congrArg Triple.p hc
  simp only at hp
  injection hp with hp'
  exact absurd hp' (by decide)

/-- Witness for C10 at a concrete store: after deleting dataset b, the
foreign-key edge from a to b is still present. -/
theorem claim_C10_delete_frame_witness :
    (⟨datasetURI "a", Node.uri exHasForeignKeyTo, datasetURI "b"⟩ : Triple) ∈
      (delete_dataset stFK1 "b").g :=
  (claim_C10_delete_frame stFK1 "b").2 (datasetURI "a") (by decide) (by decide) (by decide)

/-- Claim C5: delete_dataset removes every triple whose subject is the
dataset node or one of its field nodes, reference edges included, but
never removes a triple about the referenced business-term node itself:
any triple whose subject is a node other than the dataset node, its field
nodes, and the catalog node survives the delete. -/
theorem claim_C5_term_preserved (st : DCATCatalog) (identifier : String) :
    (∀ t ∈ st.g, (t.s = datasetURI identifier ∨ t.s ∈ fieldsOf st.g (datasetURI identifier)) →
      t ∉ (delete_dataset st identifier).g) ∧
    (∀ term : Node, term ≠ datasetURI identifier →
      term ∉ fieldsOf st.g (datasetURI identifier) → term ≠ st.catalog →
      ∀ p o : Node, (⟨term, p, o⟩ : Triple) ∈ st.g →
        (⟨term, p, o⟩ : Triple) ∈ (delete_dataset st identifier).g) := by
  constructor
  · intro t _ hsub hc
    obtain ⟨-, h2, h3, -⟩ := mem_delete_dataset.mp hc
    cases hsub with
    | inl h => exact h2 h
    | inr h => exact h3 h
  · intro term h1 h2 h3 p o hm
    refine mem_delete_dataset.mpr ⟨hm, h1, h2, ?_⟩
    intro hc
    exact h3 (congrArg Triple.s hc)

/-- Witness for C5 on the spec scenario store: deleting the orders
dataset removes its title triple but keeps the owl:Class typing of the
business-term node its customer field references. -/
theorem claim_C5_term_preserved_witness :
    (⟨datasetURI "orders", Node.uri dctTitle, Node.lit "Orders" none⟩ : Triple) ∉
      (delete_dataset stOrders "orders").g ∧
    (⟨Node.uri (FIBO_NS ++ "http://example.org/T1"), Node.uri rdfType, Node.uri owlClass⟩ :
        Triple) ∈ (delete_dataset stOrders "orders").g :=
  ⟨(claim_C5_term_preserved stOrders "orders").1 _ (by decide) (Or.inl rfl),
   (claim_C5_term_preserved stOrders "orders").2 _ (by decide) (by decide) (by decide)
     (Node.uri rdfType) (Node.uri owlClass) (by decide)⟩

/-- Counterexample to claim C6: the label query has no type restriction.
In stLbl the only labelled node is typed dcat:Dataset and is not typed as
an ontology Class, yet the call returns its identifier, contradicting the
claim that exactly the ontology-typed nodes with matching label are
returned. -/
theorem claim_C6_counterexample :
    is_business_term_in_fibo stLbl "X" = [DATASET_NS ++ "foo"] ∧
    specOntologyTyped stLbl.g (Node.uri (DATASET_NS ++ "foo")) = false := by
  constructor <;> decide

/-- Claim C6 (amended): is_business_term_in_fibo returns the str() forms
of the subjects of exactly those stored triples whose predicate is
rdfs:label and whose object equals the given string exactly and
case-sensitively, with no restriction on the subject's type; on the spec
scenario an exact match returns exactly one identifier, a case mismatch
returns the empty sequence, and no error is possible. -/
theorem claim_C6_amended :
    (∀ (st : DCATCatalog) (term s : String),
      s ∈ is_business_term_in_fibo st term ↔
        ∃ t : Triple, t ∈ st.g ∧ t.p = Node.uri rdfsLabel ∧ t.o.strForm = term ∧
          t.s.strForm = s) ∧
    is_business_term_in_fibo catT1 "Legal Entity" = ["http://example.org/T1"] ∧
    is_business_term_in_fibo catT1 "legal entity" = [] := by
  refine ⟨fun st term s => ?_, by decide, by decide⟩
  simp only [is_business_term_in_fibo, findLabelMatches, List.mem_map, List.mem_filter,
    decide_eq_true_eq]
  exact ⟨fun ⟨t, ⟨hm, hp, ho⟩, hs⟩ => ⟨t, hm, hp, ho, hs⟩,
    fun ⟨t, hm, hp, ho, hs⟩ => ⟨t, ⟨hm, hp, ho⟩, hs⟩⟩

/-- Claim C9: serialize_catalog ignores its format and indent arguments:
for every serializer and JSON parser primitive, every store, and every
format and indent value, the result is the parsed json-ld serialization
of the whole graph with the hard-coded arguments, identical to the call
with the defaults. -/
theorem claim_C9_serialize_ignores_args {α : Type} (ser : List Triple → String → Nat → String)
    (loads : String → α) (st : DCATCatalog) (format : String) (indent : Nat) :
    serialize_catalog ser loads st format indent =
      serialize_catalog ser loads st "json-ld" 2 :=
  rfl

-- Unfolding equations for the loops and membership monotonicity through
-- the write phase of add_dataset.

theorem dataset_exists_iff {st : DCATCatalog} {identifier : String} :
    dataset_exists st identifier = true ↔
      (⟨datasetURI identifier, Node.uri rdfType, Node.uri dcatDatasetClass⟩ : Triple) ∈ st.g := by
  simp [dataset_exists]

theorem addKeywords_cons {g : List Triple} {d : Node} {k : String} {ks : List String} :
    addKeywords g d (k :: ks) =
      addKeywords (addT g ⟨d, Node.uri dcatKeyword, Node.lit k none⟩) d ks := rfl

theorem addBusinessTerms_cons {g : List Triple} {d : Node} {t : String} {ts : List String} :
    addBusinessTerms g d (t :: ts) = addBusinessTerms (termStep g d t) d ts := rfl

theorem addFieldBTs_cons {g : List Triple} {fn : Node} {b : String} {bs : List String} :
    addFieldBTs g fn (b :: bs) = addFieldBTs (btStep g fn b) fn bs := rfl

theorem addFields_cons {g : List Triple} {d : Node} {b : Nat} {f : FieldSpec}
    {fs : List FieldSpec} :
    addFields g d b (f :: fs) = addFields (addField g d b f) d (b + 1) fs := rfl

theorem mem_addKeywords_of_mem {g : List Triple} {d : Node} {ks : List String} {a : Triple}
    (h : a ∈ g) : a ∈ addKeywords g d ks := by
  induction ks generalizing g with
  | nil => exact h
  | cons k ks ih => exact addKeywords_cons ▸ ih (mem_addT_of_mem h)

theorem mem_termStep_of_mem {g : List Triple} {d : Node} {t : String} {a : Triple}
    (h : a ∈ g) : a ∈ termStep g d t :=
  mem_addT_of_mem (mem_addT_of_mem h)

theorem mem_addBusinessTerms_of_mem {g : List Triple} {d : Node} {ts : List String} {a : Triple}
    (h : a ∈ g) : a ∈ addBusinessTerms g d ts := by
  induction ts generalizing g with
  | nil => exact h
  | cons t ts ih => exact addBusinessTerms_cons ▸ ih (mem_termStep_of_mem h)

theorem mem_btStep_of_mem {g : List Triple} {fn : Node} {b : String} {a : Triple}
    (h : a ∈ g) : a ∈ btStep g fn b := by
  unfold btStep
  cases findLabelMatches g b with
  | nil => exact h
  | cons m ms => exact mem_addT_of_mem (mem_addT_of_mem h)

theorem mem_addFieldBTs_of_mem {g : List Triple} {fn : Node} {bs : List String} {a : Triple}
    (h : a ∈ g) : a ∈ addFieldBTs g fn bs := by
  induction bs generalizing g with
  | nil => exact h
  | cons b bs ih => exact addFieldBTs_cons ▸ ih (mem_btStep_of_mem h)

theorem mem_addField_of_mem {g : List Triple} {d : Node} {b : Nat} {f : FieldSpec} {a : Triple}
    (h : a ∈ g) : a ∈ addField g d b f := by
  unfold addField
  refine mem_addT_of_mem ?_
  have h3 : a ∈ addT (addT (addT g
      ⟨Node.bnode b, Node.uri rdfType, Node.uri fieldClass⟩)
      ⟨Node.bnode b, Node.uri fieldName, Node.lit f.name none⟩)
      ⟨Node.bnode b, Node.uri fieldType, Node.lit f.type none⟩ :=
    mem_addT_of_mem (mem_addT_of_mem (mem_addT_of_mem h))
  cases f.description <;> cases f.business_terms <;>
    simp only [] <;>
    first
      | exact h3
      | exact mem_addT_of_mem h3
      | exact mem_addFieldBTs_of_mem h3
      | exact mem_addFieldBTs_of_mem (mem_addT_of_mem h3)

theorem mem_addFields_of_mem {g : List Triple} {d : Node} {b : Nat} {fs : List FieldSpec}
    {a : Triple} (h : a ∈ g) : a ∈ (addFields g d b fs).1 := by
  induction fs generalizing g b with
  | nil => exact h
  | cons f fs ih => exact addFields_cons ▸ ih (mem_addField_of_mem h)

theorem mem_addThemePhase_of_mem {g : List Triple} {d : Node} {c : Nat} {th : Option String}
    {a : Triple} (h : a ∈ g) : a ∈ (addThemePhase g d c th).1 := by
  unfold addThemePhase
  split
  · exact mem_addT_of_mem (mem_addT_of_mem (mem_addT_of_mem h))
  · exact h

theorem mem_addIssuedPhase_of_mem {g : List Triple} {d : Node} {is : Option String}
    {a : Triple} (h : a ∈ g) : a ∈ addIssuedPhase g d is := by
  unfold addIssuedPhase
  split
  · exact mem_addT_of_mem h
  · exact h

theorem mem_add_dataset_body_of_mem {st : DCATCatalog}
    {identifier title description : String} {theme : Option String} {keywords : List String}
    {issued : Option String} {business_terms : List String} {fields : List FieldSpec}
    {a : Triple} (h : a ∈ st.g) :
    a ∈ (add_dataset_body st identifier title description theme keywords issued
      business_terms fields).1.g := by
  unfold add_dataset_body
  exact mem_addT_of_mem (mem_addFields_of_mem (mem_addBusinessTerms_of_mem
    (mem_addIssuedPhase_of_mem (mem_addKeywords_of_mem (mem_addThemePhase_of_mem
      (mem_addT_of_mem (mem_addT_of_mem (mem_addT_of_mem h))))))))

-- Nodup is preserved by every operation (the graph is a set in rdflib;
-- the list model keeps it duplicate-free).

theorem nodup_addKeywords {g : List Triple} {d : Node} {ks : List String} (h : g.Nodup) :
    (addKeywords g d ks).Nodup := by
  induction ks generalizing g with
  | nil => exact h
  | cons k ks ih => exact addKeywords_cons ▸ ih (nodup_addT h)

theorem nodup_addBusinessTerms {g : List Triple} {d : Node} {ts : List String} (h : g.Nodup) :
    (addBusinessTerms g d ts).Nodup := by
  induction ts generalizing g with
  | nil => exact h
  | cons t ts ih => exact addBusinessTerms_cons ▸ ih (nodup_addT (nodup_addT h))

theorem nodup_btStep {g : List Triple} {fn : Node} {b : String} (h : g.Nodup) :
    (btStep g fn b).Nodup := by
  unfold btStep
  cases findLabelMatches g b with
  | nil => exact h
  | cons m ms => exact nodup_addT (nodup_addT h)

theorem nodup_addFieldBTs {g : List Triple} {fn : Node} {bs : List String} (h : g.Nodup) :
    (addFieldBTs g fn bs).Nodup := by
  induction bs generalizing g with
  | nil => exact h
  | cons b bs ih => exact addFieldBTs_cons ▸ ih (nodup_btStep h)

theorem nodup_addField {g : List Triple} {d : Node} {b : Nat} {f : FieldSpec} (h : g.Nodup) :
    (addField g d b f).Nodup := by
  unfold addField
  refine nodup_addT ?_
  have h3 : (addT (addT (addT g
      ⟨Node.bnode b, Node.uri rdfType, Node.uri fieldClass⟩)
      ⟨Node.bnode b, Node.uri fieldName, Node.lit f.name none⟩)
      ⟨Node.bnode b, Node.uri fieldType, Node.lit f.type none⟩).Nodup :=
    nodup_addT (nodup_addT (nodup_addT h))
  cases f.description <;> cases f.business_terms <;>
    first
      | exact h3
      | exact nodup_addT h3
      | exact nodup_addFieldBTs h3
      | exact nodup_addFieldBTs (nodup_addT h3)

theorem nodup_addFields {g : List Triple} {d : Node} {b : Nat} {fs : List FieldSpec}
    (h : g.Nodup) : (addFields g d b fs).1.Nodup := by
  induction fs generalizing g b with
  | nil => exact h
  | cons f fs ih => exact addFields_cons ▸ ih (nodup_addField h)

theorem nodup_addThemePhase {g : List Triple} {d : Node} {c : Nat} {th : Option String}
    (h : g.Nodup) : (addThemePhase g d c th).1.Nodup := by
  unfold addThemePhase
  split
  · exact nodup_addT (nodup_addT (nodup_addT h))
  · exact h

theorem nodup_addIssuedPhase {g : List Triple} {d : Node} {is : Option String}
    (h : g.Nodup) : (addIssuedPhase g d is).Nodup := by
  unfold addIssuedPhase
  split
  · exact nodup_addT h
  · exact h

theorem nodup_add_dataset_body {st : DCATCatalog}
    {identifier title description : String} {theme : Option String} {keywords : List String}
    {issued : Option String} {business_terms : List String} {fields : List FieldSpec}
    (h : st.g.Nodup) :
    (add_dataset_body st identifier title description theme keywords issued business_terms
      fields).1.g.Nodup := by
  unfold add_dataset_body
  exact nodup_addT (nodup_addFields (nodup_addBusinessTerms (nodup_addIssuedPhase
    (nodup_addKeywords (nodup_addThemePhase (nodup_addT (nodup_addT (nodup_addT h))))))))

theorem nodup_delete_dataset {st : DCATCatalog} {identifier : String} (h : st.g.Nodup) :
    (delete_dataset st identifier).g.Nodup := by
  simp only [delete_dataset]
  exact ((((h.filter _).filter _).filter _).filter _).filter _

theorem nodup_add_dataset {st : DCATCatalog}
    {identifier title description : String} {theme : Option String} {keywords : List String}
    {issued : Option String} {business_terms : List String} {fields : List FieldSpec}
    (h : st.g.Nodup) :
    (add_dataset st identifier title description theme keywords issued business_terms
      fields).1.g.Nodup := by
  unfold add_dataset
  split
  · exact nodup_add_dataset_body (nodup_delete_dataset h)
  · exact nodup_add_dataset_body h

-- Introduction lemmas: the loops write their triples.

theorem kw_mem_addKeywords {g : List Triple} {d : Node} {ks : List String} {k : String}
    (h : k ∈ ks) :
    (⟨d, Node.uri dcatKeyword, Node.lit k none⟩ : Triple) ∈ addKeywords g d ks := by
  induction ks generalizing g with
  | nil => cases h
  | cons k0 ks ih =>
    rw [addKeywords_cons]
    rcases List.mem_cons.mp h with h | h
    · subst h
      exact mem_addKeywords_of_mem mem_addT_self
    · exact ih h

theorem bt_mem_addBusinessTerms {g : List Triple} {d : Node} {ts : List String} {t : String}
    (h : t ∈ ts) :
    (⟨d, Node.uri rdfsSeeAlso, Node.uri (FIBO_NS ++ t)⟩ : Triple) ∈ addBusinessTerms g d ts ∧
    (⟨Node.uri (FIBO_NS ++ t), Node.uri rdfType, Node.uri owlClass⟩ : Triple) ∈
      addBusinessTerms g d ts := by
  induction ts generalizing g with
  | nil => cases h
  | cons t0 ts ih =>
    rw [addBusinessTerms_cons]
    rcases List.mem_cons.mp h with h | h
    · subst h
      exact ⟨mem_addBusinessTerms_of_mem (mem_addT_of_mem mem_addT_self),
        mem_addBusinessTerms_of_mem mem_addT_self⟩
    · exact ih h

-- The two outcome shapes of add_foreign_key_relationship.

theorem add_fk_success {st : DCATCatalog} {a b : String} {desc : Option String}
    (ha : dataset_exists st a = true) (hb : dataset_exists st b = true) :
    add_foreign_key_relationship st a b desc =
      ({ st with g :=
        (if truthy desc then
          addT (addT st.g ⟨datasetURI a, Node.uri exHasForeignKeyTo, datasetURI b⟩)
            ⟨datasetURI a, Node.uri rdfsComment, Node.lit (desc.getD "") none⟩
        else addT st.g ⟨datasetURI a, Node.uri exHasForeignKeyTo, datasetURI b⟩) },
       Except.ok true) := by
  simp only [add_foreign_key_relationship, ha, hb, Bool.not_true, Bool.or_self,
    Bool.false_eq_true, if_false]

theorem add_fk_success_none {st : DCATCatalog} {a b : String}
    (ha : dataset_exists st a = true) (hb : dataset_exists st b = true) :
    add_foreign_key_relationship st a b none =
      ({ st with g := addT st.g ⟨datasetURI a, Node.uri exHasForeignKeyTo, datasetURI b⟩ },
       Except.ok true) := by
  rw [add_fk_success ha hb]
  rfl

theorem add_fk_error {st : DCATCatalog} {a b : String} {desc : Option String}
    (h : dataset_exists st a = false ∨ dataset_exists st b = false) :
    add_foreign_key_relationship st a b desc =
      (st, Except.error "One or both datasets do not exist.") := by
  rcases h with h | h <;> simp [add_foreign_key_relationship, h]

/-- Claim C4: add_foreign_key_relationship errors exactly when at least
one of the two datasets does not exist; in the error case the raise
happens before any write, so the store is completely unchanged (hence a
pair with no prior edge still has none); when both exist it adds the
hasForeignKeyTo edge plus, for a truthy description, a comment literal on
the source, and returns success. -/
theorem claim_C4_fk_integrity (st : DCATCatalog) (a b : String) (desc : Option String) :
    ((add_foreign_key_relationship st a b desc).2 =
        Except.error "One or both datasets do not exist." ↔
      (dataset_exists st a = false ∨ dataset_exists st b = false)) ∧
    ((dataset_exists st a = false ∨ dataset_exists st b = false) →
      (add_foreign_key_relationship st a b desc).1 = st) ∧
    (dataset_exists st a = true → dataset_exists st b = true →
      (add_foreign_key_relationship st a b desc).2 = Except.ok true ∧
      (add_foreign_key_relationship st a b desc).1.g =
        (if truthy desc then
          addT (addT st.g ⟨datasetURI a, Node.uri exHasForeignKeyTo, datasetURI b⟩)
            ⟨datasetURI a, Node.uri rdfsComment, Node.lit (desc.getD "") none⟩
        else addT st.g ⟨datasetURI a, Node.uri exHasForeignKeyTo, datasetURI b⟩) ∧
      (⟨datasetURI a, Node.uri exHasForeignKeyTo, datasetURI b⟩ : Triple) ∈
        (add_foreign_key_relationship st a b desc).1.g) := by
  refine ⟨⟨fun herr => ?_, fun h => by rw [add_fk_error h]⟩,
    fun h => by rw [add_fk_error h], fun ha hb => ?_⟩
  · by_contra hc
    simp only [not_or, Bool.not_eq_false] at hc
    rw [add_fk_success hc.1 hc.2] at herr
    cases herr
  · rw [add_fk_success ha hb]
    refine ⟨rfl, rfl, ?_⟩
    dsimp only
    split
    · exact mem_addT_of_mem mem_addT_self
    · exact mem_addT_self

/-- Witness for C4: on a fresh catalog the foreign-key call with two
missing identifiers errors and leaves the store untouched; with both
datasets present it succeeds. -/
theorem claim_C4_fk_integrity_witness :
    ((add_foreign_key_relationship catT1 "missing-a" "missing-b" none).2 =
        Except.error "One or both datasets do not exist.") ∧
    (add_foreign_key_relationship catT1 "missing-a" "missing-b" none).1 = catT1 ∧
    (add_foreign_key_relationship stAB "a" "b" none).2 = Except.ok true :=
  ⟨(claim_C4_fk_integrity catT1 "missing-a" "missing-b" none).1.mpr (Or.inl (by decide)),
   (claim_C4_fk_integrity catT1 "missing-a" "missing-b" none).2.1 (Or.inl (by decide)),
   ((claim_C4_fk_integrity stAB "a" "b" none).2.2 (by decide) (by decide)).1⟩

/-- Claim C1 evaluated at the failing input (code bug): in the spec
scenario store the customer field (blank node 1) carries the single
hasBusinessTerm edge of the whole store, but its target is the
namespace-concatenated URI FIBO_NS ++ T1 built by
URIRef(self.FIBO_NS[matches[0]]) from the already-absolute matched URI,
not the resolver's first match T1 itself, which appears in no such edge;
the zero-match order_id field (blank node 0) has no edge. -/
theorem claim_C1_field_bt_target :
    is_business_term_in_fibo catT1 "Legal Entity" = ["http://example.org/T1"] ∧
    stOrders.g.filter (fun t => decide (t.p = Node.uri fieldHasBusinessTerm)) =
      [⟨Node.bnode 1, Node.uri fieldHasBusinessTerm,
        Node.uri (FIBO_NS ++ "http://example.org/T1")⟩] ∧
    (⟨Node.bnode 1, Node.uri fieldHasBusinessTerm, Node.uri "http://example.org/T1"⟩ :
      Triple) ∉ stOrders.g ∧
    fieldsOf stOrders.g (datasetURI "orders") = [Node.bnode 0, Node.bnode 1] ∧
    (⟨Node.bnode 1, Node.uri fieldName, Node.lit "customer" none⟩ : Triple) ∈ stOrders.g := by
  refine ⟨by decide, by decide, by decide, by decide, by decide⟩

/-- Counterexample to claim C2: the first registration of dataset d wrote
the theme concept triples on blank node 0; after re-registering the same
payload those triples are still in the store even though the new theme
edge points at a different blank node, so not every triple written by the
earlier registration is removed. -/
theorem claim_C2_counterexample :
    (⟨Node.bnode 0, Node.uri rdfType, Node.uri skosConcept⟩ : Triple) ∈ stTheme.g ∧
    (⟨Node.bnode 0, Node.uri skosPrefLabel, Node.lit "Th" none⟩ : Triple) ∈ stTheme.g ∧
    (⟨Node.bnode 0, Node.uri rdfType, Node.uri skosConcept⟩ : Triple) ∈ stTheme2.g ∧
    (⟨Node.bnode 0, Node.uri skosPrefLabel, Node.lit "Th" none⟩ : Triple) ∈ stTheme2.g ∧
    (⟨datasetURI "d", Node.uri dcatTheme, Node.bnode 0⟩ : Triple) ∉ stTheme2.g := by
  refine ⟨by decide, by decide, by decide, by decide, by decide⟩

/-- Claim C2 (amended): re-registering an existing identifier first runs
the full delete before any new fact is written, and that delete removes
every previously stored triple whose subject is the dataset node or one
of its field nodes — attributes, field triples, theme edge, keyword
literals, and seeAlso reference edges — but the theme concept node's own
triples (its typing and preferred label, whose subject is a blank node
that is not a field node) are not removed and survive as orphans. -/
theorem claim_C2_amended (st : DCATCatalog) (identifier title description : String)
    (theme : Option String) (keywords : List String) (issued : Option String)
    (business_terms : List String) (fields : List FieldSpec)
    (h : dataset_exists st identifier = true) :
    (add_dataset st identifier title description theme keywords issued business_terms fields =
      add_dataset_body (delete_dataset st identifier) identifier title description theme
        keywords issued business_terms fields) ∧
    (∀ t ∈ st.g, (t.s = datasetURI identifier ∨ t.s ∈ fieldsOf st.g (datasetURI identifier)) →
      t ∉ (delete_dataset st identifier).g) ∧
    (∀ (b : Nat) (p o : Node), (⟨Node.bnode b, p, o⟩ : Triple) ∈ st.g →
      Node.bnode b ∉ fieldsOf st.g (datasetURI identifier) →
      (⟨Node.bnode b, p, o⟩ : Triple) ∈ (delete_dataset st identifier).g) := by
  refine ⟨by simp [add_dataset, h], ?_, ?_⟩
  · intro t _ hsub hc
    obtain ⟨-, h2, h3, -⟩ := mem_delete_dataset.mp hc
    cases hsub with
    | inl hs => exact h2 hs
    | inr hs => exact h3 hs
  · intro b p o hm hnf
    refine mem_delete_dataset.mpr ⟨hm, by simp [datasetURI], hnf, ?_⟩
    intro hc
    have hcs := congrArg Triple.s hc
    simp [DCATCatalog.catalog] at hcs

/-- Witness for the amended C2: on the concrete theme store, the delete
phase of the re-registration keeps the orphaned preferred-label triple of
the old theme node. -/
theorem claim_C2_amended_witness :
    (⟨Node.bnode 0, Node.uri skosPrefLabel, Node.lit "Th" none⟩ : Triple) ∈
      (delete_dataset stTheme "d").g :=
  (claim_C2_amended stTheme "d" "t" "de" (some "Th") [] none [] [] (by decide)).2.2 0
    (Node.uri skosPrefLabel) (Node.lit "Th" none) (by decide) (by decide)

/-- Counterexample to claim C3: the store has set semantics, so the
keyword k passed twice for dataset d is stored once, not twice, and two
identical foreign-key calls leave a single hasForeignKeyTo triple, not
two. -/
theorem claim_C3_counterexample :
    stDup.g.count ⟨datasetURI "d", Node.uri dcatKeyword, Node.lit "k" none⟩ = 1 ∧
    stFK2.g.count ⟨datasetURI "a", Node.uri exHasForeignKeyTo, datasetURI "b"⟩ = 1 := by
  refine ⟨by decide, by decide⟩

/-- Claim C3 (amended): under the store's set semantics duplicates
collapse: a keyword occurring in the input sequence (even repeatedly)
yields exactly one stored keyword triple, and two identical foreign-key
calls on existing datasets leave exactly one hasForeignKeyTo triple. -/
theorem claim_C3_amended (st : DCATCatalog) (identifier title description : String)
    (theme : Option String) (keywords : List String) (issued : Option String)
    (business_terms : List String) (fields : List FieldSpec) (k : String)
    (hn : st.g.Nodup) (hk : k ∈ keywords) :
    ((add_dataset st identifier title description theme keywords issued business_terms
        fields).1.g.count
      ⟨datasetURI identifier, Node.uri dcatKeyword, Node.lit k none⟩ = 1) ∧
    (∀ a b : String, dataset_exists st a = true → dataset_exists st b = true →
      ((add_foreign_key_relationship (add_foreign_key_relationship st a b none).1 a b
          none).1.g.count
        ⟨datasetURI a, Node.uri exHasForeignKeyTo, datasetURI b⟩ = 1)) := by
  constructor
  · have hmem : (⟨datasetURI identifier, Node.uri dcatKeyword, Node.lit k none⟩ : Triple) ∈
        (add_dataset st identifier title description theme keywords issued business_terms
          fields).1.g := by
      unfold add_dataset add_dataset_body
      exact mem_addT_of_mem (mem_addFields_of_mem (mem_addBusinessTerms_of_mem
        (mem_addIssuedPhase_of_mem (kw_mem_addKeywords hk))))
    exact List.count_eq_one_of_mem (nodup_add_dataset hn) hmem
  · intro a b ha hb
    rw [add_fk_success_none ha hb]
    have ha2 : dataset_exists
        ({ st with g := addT st.g ⟨datasetURI a, Node.uri exHasForeignKeyTo, datasetURI b⟩ })
          a = true :=
      dataset_exists_iff.mpr (mem_addT_of_mem (dataset_exists_iff.mp ha))
    have hb2 : dataset_exists
        ({ st with g := addT st.g ⟨datasetURI a, Node.uri exHasForeignKeyTo, datasetURI b⟩ })
          b = true :=
      dataset_exists_iff.mpr (mem_addT_of_mem (dataset_exists_iff.mp hb))
    rw [add_fk_success_none ha2 hb2]
    exact List.count_eq_one_of_mem (nodup_addT (nodup_addT hn))
      (mem_addT_of_mem mem_addT_self)

/-- Witness for the amended C3: the concrete duplicate-keyword store has
exactly one stored copy of the keyword, and the double foreign-key call
on stAB leaves exactly one edge. -/
theorem claim_C3_amended_witness :
    stDup.g.count ⟨datasetURI "d", Node.uri dcatKeyword, Node.lit "k" none⟩ = 1 ∧
    ((add_foreign_key_relationship (add_foreign_key_relationship stAB "a" "b" none).1 "a"
        "b" none).1.g.count
      ⟨datasetURI "a", Node.uri exHasForeignKeyTo, datasetURI "b"⟩ = 1) :=
  ⟨(claim_C3_amended catT1 "d" "t" "de" none ["k", "k"] none [] [] "k" (by decide)
      (by decide)).1,
   (claim_C3_amended stAB "x" "t" "de" none ["k"] none [] [] "k" (by decide) (by decide)).2
     "a" "b" (by decide) (by decide)⟩

/-- Claim C8: every dataset-level business term is linked as seeAlso to
the URI built from the ontology namespace text plus the raw term string,
and that constructed node is asserted as owl:Class — for every store,
hence regardless of whether the label resolves in the loaded ontology;
the resolver is not involved. -/
theorem claim_C8_dataset_terms (st : DCATCatalog) (identifier title description : String)
    (theme : Option String) (keywords : List String) (issued : Option String)
    (business_terms : List String) (fields : List FieldSpec) (term : String)
    (h : term ∈ business_terms) :
    (⟨datasetURI identifier, Node.uri rdfsSeeAlso, Node.uri (FIBO_NS ++ term)⟩ : Triple) ∈
      (add_dataset st identifier title description theme keywords issued business_terms
        fields).1.g ∧
    (⟨Node.uri (FIBO_NS ++ term), Node.uri rdfType, Node.uri owlClass⟩ : Triple) ∈
      (add_dataset st identifier title description theme keywords issued business_terms
        fields).1.g := by
  unfold add_dataset add_dataset_body
  exact ⟨mem_addT_of_mem (mem_addFields_of_mem (bt_mem_addBusinessTerms h).1),
    mem_addT_of_mem (mem_addFields_of_mem (bt_mem_addBusinessTerms h).2)⟩

/-- Witness for C8: a term absent from the loaded ontology is still
linked by constructed URI and typed as a class. -/
theorem claim_C8_dataset_terms_witness :
    (⟨datasetURI "d", Node.uri rdfsSeeAlso, Node.uri (FIBO_NS ++ "Nonexistent")⟩ : Triple) ∈
      (add_dataset catT1 "d" "t" "de" none [] none ["Nonexistent"] []).1.g ∧
    (⟨Node.uri (FIBO_NS ++ "Nonexistent"), Node.uri rdfType, Node.uri owlClass⟩ : Triple) ∈
      (add_dataset catT1 "d" "t" "de" none [] none ["Nonexistent"] []).1.g :=
  claim_C8_dataset_terms catT1 "d" "t" "de" none [] none ["Nonexistent"] [] "Nonexistent"
    (by decide)

-- Shift-invariance of the predicates and the simulation step lemma for
-- claim C7: each paired write of the two runs preserves the relation.

theorem shiftNode_eq_uri_iff {δ : Nat} {n : Node} {u : String} :
    shiftNode δ n = Node.uri u ↔ n = Node.uri u := by
  cases n <;> simp [shiftNode]

theorem labP_shift {δ : Nat} {t : Triple} : labP (shiftTriple δ t) = labP t := by
  rw [labP, labP, decide_eq_decide]
  exact shiftNode_eq_uri_iff

theorem labP_explicit {s o : Node} {p : String} (hp : ¬ p = rdfsLabel) :
    labP ⟨s, Node.uri p, o⟩ = false := by
  simp [labP, hp]

theorem hfP_shift {δ : Nat} {u : String} {t : Triple} :
    hfP (Node.uri u) (shiftTriple δ t) = hfP (Node.uri u) t := by
  rw [hfP, hfP, decide_eq_decide]
  exact and_congr shiftNode_eq_uri_iff shiftNode_eq_uri_iff

theorem subP_shift {δ : Nat} {u : String} {FF₁ FF₂ : List Node}
    (hFF : FF₂ = FF₁.map (shiftNode δ)) {t : Triple} :
    subP FF₂ (Node.uri u) (shiftTriple δ t) = subP FF₁ (Node.uri u) t := by
  subst hFF
  rw [subP, subP, decide_eq_decide]
  exact or_congr shiftNode_eq_uri_iff (List.mem_map_of_injective (shiftNode_injective δ))

theorem findLabelMatches_eq_labelView (g : List Triple) (term : String) :
    findLabelMatches g term =
      ((g.filter labP).filter (fun t => decide (t.o.strForm = term))).map
        (fun t => t.s.strForm) := by
  unfold findLabelMatches
  rw [List.filter_filter]
  congr 1
  apply List.filter_congr
  intro t _
  rw [Bool.decide_and, Bool.and_comm]
  rfl

theorem findLabelMatches_congr {h₁ h₂ : List Triple} (h : h₂.filter labP = h₁.filter labP)
    (term : String) : findLabelMatches h₂ term = findLabelMatches h₁ term := by
  rw [findLabelMatches_eq_labelView, findLabelMatches_eq_labelView, h]

theorem SimR_addT {u : String} {δ : Nat} {FF₁ FF₂ : List Node} {h₁ h₂ : List Triple}
    {t : Triple} (hR : SimR (Node.uri u) δ FF₁ FF₂ h₁ h₂) (hlab : labP t = false) :
    SimR (Node.uri u) δ FF₁ FF₂ (addT h₁ t) (addT h₂ (shiftTriple δ t)) := by
  obtain ⟨h1, h2, h3⟩ := hR
  refine ⟨fun hFF => ?_, ?_, ?_⟩
  · have hs := subP_shift (u := u) hFF (t := t)
    cases hb : subP FF₁ (Node.uri u) t with
    | true =>
      rw [filter_addT_pos (hs.trans hb), filter_addT_pos hb, h1 hFF,
        addT_map (shiftTriple_injective δ)]
    | false =>
      rw [filter_addT_neg (hs.trans hb), filter_addT_neg hb, h1 hFF]
  · rw [filter_addT_neg (labP_shift.trans hlab), filter_addT_neg hlab, h2]
  · cases hf : hfP (Node.uri u) t with
    | true =>
      rw [filter_addT_pos (hfP_shift.trans hf), filter_addT_pos hf, h3,
        addT_map (shiftTriple_injective δ)]
    | false =>
      rw [filter_addT_neg (hfP_shift.trans hf), filter_addT_neg hf, h3]

-- Paired phase lemmas: the two runs of the write phase perform
-- corresponding writes (the second run's blank nodes shifted by δ).

theorem SimR_addKeywords {u : String} {δ : Nat} {FF₁ FF₂ : List Node} {h₁ h₂ : List Triple}
    {l : List String} (hR : SimR (Node.uri u) δ FF₁ FF₂ h₁ h₂) :
    SimR (Node.uri u) δ FF₁ FF₂ (addKeywords h₁ (Node.uri u) l)
      (addKeywords h₂ (Node.uri u) l) := by
  induction l generalizing h₁ h₂ with
  | nil => exact hR
  | cons k l ih =>
    rw [addKeywords_cons, addKeywords_cons]
    exact ih (SimR_addT hR (labP_explicit (by decide)))

theorem SimR_termStep {u : String} {δ : Nat} {FF₁ FF₂ : List Node} {h₁ h₂ : List Triple}
    {t : String} (hR : SimR (Node.uri u) δ FF₁ FF₂ h₁ h₂) :
    SimR (Node.uri u) δ FF₁ FF₂ (termStep h₁ (Node.uri u) t)
      (termStep h₂ (Node.uri u) t) :=
  SimR_addT (SimR_addT hR (labP_explicit (by decide))) (labP_explicit (by decide))

theorem SimR_addBusinessTerms {u : String} {δ : Nat} {FF₁ FF₂ : List Node}
    {h₁ h₂ : List Triple} {l : List String} (hR : SimR (Node.uri u) δ FF₁ FF₂ h₁ h₂) :
    SimR (Node.uri u) δ FF₁ FF₂ (addBusinessTerms h₁ (Node.uri u) l)
      (addBusinessTerms h₂ (Node.uri u) l) := by
  induction l generalizing h₁ h₂ with
  | nil => exact hR
  | cons t l ih =>
    rw [addBusinessTerms_cons, addBusinessTerms_cons]
    exact ih (SimR_termStep hR)

theorem SimR_btStep {u : String} {δ : Nat} {FF₁ FF₂ : List Node} {h₁ h₂ : List Triple}
    {b : Nat} {bt : String} (hR : SimR (Node.uri u) δ FF₁ FF₂ h₁ h₂) :
    SimR (Node.uri u) δ FF₁ FF₂ (btStep h₁ (Node.bnode b) bt)
      (btStep h₂ (Node.bnode (b + δ)) bt) := by
  have hm : findLabelMatches h₂ bt = findLabelMatches h₁ bt :=
    findLabelMatches_congr hR.2.1 bt
  unfold btStep
  rw [hm]
  cases findLabelMatches h₁ bt with
  | nil => exact hR
  | cons m ms => exact SimR_addT (SimR_addT hR (labP_explicit (by decide))) (labP_explicit (by decide))

theorem SimR_addFieldBTs {u : String} {δ : Nat} {FF₁ FF₂ : List Node} {h₁ h₂ : List Triple}
    {b : Nat} {bs : List String} (hR : SimR (Node.uri u) δ FF₁ FF₂ h₁ h₂) :
    SimR (Node.uri u) δ FF₁ FF₂ (addFieldBTs h₁ (Node.bnode b) bs)
      (addFieldBTs h₂ (Node.bnode (b + δ)) bs) := by
  induction bs generalizing h₁ h₂ with
  | nil => exact hR
  | cons bt bs ih =>
    rw [addFieldBTs_cons, addFieldBTs_cons]
    exact ih (SimR_btStep hR)

theorem SimR_addField {u : String} {δ : Nat} {FF₁ FF₂ : List Node} {h₁ h₂ : List Triple}
    {b : Nat} {f : FieldSpec} (hR : SimR (Node.uri u) δ FF₁ FF₂ h₁ h₂) :
    SimR (Node.uri u) δ FF₁ FF₂ (addField h₁ (Node.uri u) b f)
      (addField h₂ (Node.uri u) (b + δ) f) := by
  unfold addField
  have h3 : SimR (Node.uri u) δ FF₁ FF₂
      (addT (addT (addT h₁ ⟨Node.bnode b, Node.uri rdfType, Node.uri fieldClass⟩)
        ⟨Node.bnode b, Node.uri fieldName, Node.lit f.name none⟩)
        ⟨Node.bnode b, Node.uri fieldType, Node.lit f.type none⟩)
      (addT (addT (addT h₂ ⟨Node.bnode (b + δ), Node.uri rdfType, Node.uri fieldClass⟩)
        ⟨Node.bnode (b + δ), Node.uri fieldName, Node.lit f.name none⟩)
        ⟨Node.bnode (b + δ), Node.uri fieldType, Node.lit f.type none⟩) :=
    SimR_addT (SimR_addT (SimR_addT hR (labP_explicit (by decide))) (labP_explicit (by decide))) (labP_explicit (by decide))
  cases f.description with
  | none =>
    cases f.business_terms with
    | none => exact SimR_addT h3 (labP_explicit (by decide))
    | some bts => exact SimR_addT (SimR_addFieldBTs h3) (labP_explicit (by decide))
  | some d =>
    have h4 := SimR_addT h3
      (t := ⟨Node.bnode b, Node.uri fieldDescription, Node.lit d none⟩) (labP_explicit (by decide))
    cases f.business_terms with
    | none => exact SimR_addT h4 (labP_explicit (by decide))
    | some bts => exact SimR_addT (SimR_addFieldBTs h4) (labP_explicit (by decide))

theorem SimR_addFields {u : String} {δ : Nat} {FF₁ FF₂ : List Node} {h₁ h₂ : List Triple}
    {b : Nat} {fs : List FieldSpec} (hR : SimR (Node.uri u) δ FF₁ FF₂ h₁ h₂) :
    SimR (Node.uri u) δ FF₁ FF₂ (addFields h₁ (Node.uri u) b fs).1
      (addFields h₂ (Node.uri u) (b + δ) fs).1 ∧
    (addFields h₂ (Node.uri u) (b + δ) fs).2 = (addFields h₁ (Node.uri u) b fs).2 + δ := by
  induction fs generalizing h₁ h₂ b with
  | nil => exact ⟨hR, rfl⟩
  | cons f fs ih =>
    rw [addFields_cons, addFields_cons]
    have e : b + δ + 1 = b + 1 + δ := Nat.add_right_comm b δ 1
    rw [e]
    exact ih (SimR_addField hR)

theorem SimR_addThemePhase {u : String} {δ : Nat} {FF₁ FF₂ : List Node} {h₁ h₂ : List Triple}
    {c : Nat} {v : Option String} (hR : SimR (Node.uri u) δ FF₁ FF₂ h₁ h₂) :
    SimR (Node.uri u) δ FF₁ FF₂ (addThemePhase h₁ (Node.uri u) c v).1
      (addThemePhase h₂ (Node.uri u) (c + δ) v).1 ∧
    (addThemePhase h₂ (Node.uri u) (c + δ) v).2 =
      (addThemePhase h₁ (Node.uri u) c v).2 + δ := by
  unfold addThemePhase
  by_cases ht : truthy v = true
  · rw [if_pos ht, if_pos ht]
    refine ⟨SimR_addT (SimR_addT (SimR_addT hR (labP_explicit (by decide))) (labP_explicit (by decide))) (labP_explicit (by decide)), ?_⟩
    exact Nat.add_right_comm c δ 1
  · rw [if_neg ht, if_neg ht]
    exact ⟨hR, rfl⟩

theorem SimR_addIssuedPhase {u : String} {δ : Nat} {FF₁ FF₂ : List Node}
    {h₁ h₂ : List Triple} {v : Option String} (hR : SimR (Node.uri u) δ FF₁ FF₂ h₁ h₂) :
    SimR (Node.uri u) δ FF₁ FF₂ (addIssuedPhase h₁ (Node.uri u) v)
      (addIssuedPhase h₂ (Node.uri u) v) := by
  unfold addIssuedPhase
  by_cases hi : truthy v = true
  · rw [if_pos hi, if_pos hi]
    exact SimR_addT hR (labP_explicit (by decide))
  · rw [if_neg hi, if_neg hi]
    exact hR

theorem SimR_add_dataset_body {x y : DCATCatalog} {δ : Nat} {FF₁ FF₂ : List Node}
    {q t d : String} {v : Option String} {k : List String}
    {j : Option String} {b : List String} {l : List FieldSpec}
    (hcat : y.catalog_uri = x.catalog_uri) (hc : y.nextB = x.nextB + δ)
    (hR : SimR (datasetURI q) δ FF₁ FF₂ x.g y.g) :
    SimR (datasetURI q) δ FF₁ FF₂
      (add_dataset_body x q t d v k j
        b l).1.g
      (add_dataset_body y q t d v k j
        b l).1.g ∧
    (add_dataset_body y q t d v k j
        b l).1.nextB =
      (add_dataset_body x q t d v k j
        b l).1.nextB + δ := by
  simp only [add_dataset_body, DCATCatalog.catalog, datasetURI, hcat, hc]
  have h0 : SimR (Node.uri (DATASET_NS ++ q)) δ FF₁ FF₂
      (addT (addT (addT x.g
        ⟨Node.uri (DATASET_NS ++ q), Node.uri rdfType, Node.uri dcatDatasetClass⟩)
        ⟨Node.uri (DATASET_NS ++ q), Node.uri dctTitle, Node.lit t none⟩)
        ⟨Node.uri (DATASET_NS ++ q), Node.uri dctDescription,
          Node.lit d none⟩)
      (addT (addT (addT y.g
        ⟨Node.uri (DATASET_NS ++ q), Node.uri rdfType, Node.uri dcatDatasetClass⟩)
        ⟨Node.uri (DATASET_NS ++ q), Node.uri dctTitle, Node.lit t none⟩)
        ⟨Node.uri (DATASET_NS ++ q), Node.uri dctDescription,
          Node.lit d none⟩) :=
    SimR_addT (SimR_addT (SimR_addT hR (labP_explicit (by decide)))
      (labP_explicit (by decide))) (labP_explicit (by decide))
  have hTh := SimR_addThemePhase (c := x.nextB) (v := v) h0
  have hkw := SimR_addKeywords (l := k) hTh.1
  have his := SimR_addIssuedPhase (v := j) hkw
  have hbt := SimR_addBusinessTerms (l := b) his
  rw [hTh.2]
  exact ⟨SimR_addT (SimR_addFields hbt).1 (labP_explicit (by decide)),
    (SimR_addFields hbt).2⟩

-- Freshness of blank nodes (graphBelow) and its preservation.

theorem addT_eq_append {g : List Triple} {t : Triple} (h : t ∉ g) : addT g t = g ++ [t] := by
  rw [addT, if_neg h]

theorem not_mem_of_graphBelow {c : Nat} {g : List Triple} {t : Triple}
    (hg : graphBelow c g = true) (ht : tripleBelow c t = false) : t ∉ g := by
  intro hm
  rw [graphBelow, List.all_eq_true] at hg
  rw [hg t hm] at ht
  cases ht

theorem nodeBelow_mono {c c' : Nat} {n : Node} (h : c ≤ c') (hn : nodeBelow c n = true) :
    nodeBelow c' n = true := by
  cases n <;> simp only [nodeBelow] at hn ⊢
  rw [decide_eq_true_eq] at hn
  rw [decide_eq_true_eq]
  omega

theorem tripleBelow_mono {c c' : Nat} {t : Triple} (h : c ≤ c')
    (ht : tripleBelow c t = true) : tripleBelow c' t = true := by
  rw [tripleBelow, Bool.and_eq_true, Bool.and_eq_true] at ht ⊢
  exact ⟨⟨nodeBelow_mono h ht.1.1, nodeBelow_mono h ht.1.2⟩, nodeBelow_mono h ht.2⟩

theorem graphBelow_mono {c c' : Nat} {g : List Triple} (h : c ≤ c')
    (hg : graphBelow c g = true) : graphBelow c' g = true := by
  rw [graphBelow, List.all_eq_true] at hg ⊢
  exact fun t ht => tripleBelow_mono h (hg t ht)

theorem graphBelow_addT {c : Nat} {g : List Triple} {t : Triple}
    (hg : graphBelow c g = true) (ht : tripleBelow c t = true) :
    graphBelow c (addT g t) = true := by
  by_cases hm : t ∈ g
  · rw [addT, if_pos hm]
    exact hg
  · rw [addT_eq_append hm, graphBelow, List.all_append]
    rw [graphBelow] at hg
    simp [hg, ht]

theorem graphBelow_filter {c : Nat} {g : List Triple} {φ : Triple → Bool}
    (hg : graphBelow c g = true) : graphBelow c (g.filter φ) = true := by
  rw [graphBelow, List.all_eq_true] at hg ⊢
  exact fun t ht => hg t (List.mem_filter.mp ht).1

theorem tripleBelow_no_bnode {c : Nat} {a b : String} {o : Node}
    (ho : nodeBelow c o = true) :
    tripleBelow c ⟨Node.uri a, Node.uri b, o⟩ = true := by
  simp only [tripleBelow, Bool.and_eq_true]
  exact ⟨⟨rfl, rfl⟩, ho⟩

theorem graphBelow_addKeywords {c : Nat} {g : List Triple} {u : String} {l : List String}
    (hg : graphBelow c g = true) :
    graphBelow c (addKeywords g (Node.uri u) l) = true := by
  induction l generalizing g with
  | nil => exact hg
  | cons k l ih =>
    rw [addKeywords_cons]
    exact ih (graphBelow_addT hg (tripleBelow_no_bnode rfl))

theorem graphBelow_termStep {c : Nat} {g : List Triple} {u t : String}
    (hg : graphBelow c g = true) :
    graphBelow c (termStep g (Node.uri u) t) = true :=
  graphBelow_addT (graphBelow_addT hg (tripleBelow_no_bnode rfl)) (tripleBelow_no_bnode rfl)

theorem graphBelow_addBusinessTerms {c : Nat} {g : List Triple} {u : String}
    {l : List String} (hg : graphBelow c g = true) :
    graphBelow c (addBusinessTerms g (Node.uri u) l) = true := by
  induction l generalizing g with
  | nil => exact hg
  | cons t l ih =>
    rw [addBusinessTerms_cons]
    exact ih (graphBelow_termStep hg)

theorem graphBelow_btStep {c : Nat} {g : List Triple} {fn : Node} {bt : String}
    (hg : graphBelow c g = true) (hfn : nodeBelow c fn = true) :
    graphBelow c (btStep g fn bt) = true := by
  unfold btStep
  cases findLabelMatches g bt with
  | nil => exact hg
  | cons m ms =>
    refine graphBelow_addT (graphBelow_addT hg ?_) (tripleBelow_no_bnode rfl)
    simp only [tripleBelow, Bool.and_eq_true]
    exact ⟨⟨hfn, rfl⟩, rfl⟩

theorem graphBelow_addFieldBTs {c : Nat} {g : List Triple} {fn : Node} {bs : List String}
    (hg : graphBelow c g = true) (hfn : nodeBelow c fn = true) :
    graphBelow c (addFieldBTs g fn bs) = true := by
  induction bs generalizing g with
  | nil => exact hg
  | cons b bs ih =>
    rw [addFieldBTs_cons]
    exact ih (graphBelow_btStep hg hfn)

theorem graphBelow_addField {c : Nat} {g : List Triple} {u : String} {b : Nat}
    {f : FieldSpec} (hg : graphBelow c g = true) (hb : b < c) :
    graphBelow c (addField g (Node.uri u) b f) = true := by
  have hbn : nodeBelow c (Node.bnode b) = true := by
    simp [nodeBelow, hb]
  have hattr : ∀ (p : String) (o : Node), nodeBelow c o = true →
      tripleBelow c ⟨Node.bnode b, Node.uri p, o⟩ = true := by
    intro p o ho
    simp only [tripleBelow, Bool.and_eq_true]
    refine ⟨⟨?_, rfl⟩, ho⟩
    simp only [nodeBelow, decide_eq_true_eq]
    exact hb
  unfold addField
  have h3 : graphBelow c (addT (addT (addT g
      ⟨Node.bnode b, Node.uri rdfType, Node.uri fieldClass⟩)
      ⟨Node.bnode b, Node.uri fieldName, Node.lit f.name none⟩)
      ⟨Node.bnode b, Node.uri fieldType, Node.lit f.type none⟩) = true :=
    graphBelow_addT (graphBelow_addT (graphBelow_addT hg (hattr _ _ rfl)) (hattr _ _ rfl))
      (hattr _ _ rfl)
  have hedge : tripleBelow c ⟨Node.uri u, Node.uri fieldHasField, Node.bnode b⟩ = true :=
    tripleBelow_no_bnode hbn
  cases f.description with
  | none =>
    cases f.business_terms with
    | none => exact graphBelow_addT h3 hedge
    | some bts => exact graphBelow_addT (graphBelow_addFieldBTs h3 hbn) hedge
  | some dsc =>
    have h4 := graphBelow_addT h3 (hattr fieldDescription (Node.lit dsc none) rfl)
    cases f.business_terms with
    | none => exact graphBelow_addT h4 hedge
    | some bts => exact graphBelow_addT (graphBelow_addFieldBTs h4 hbn) hedge

theorem graphBelow_addThemePhase {c : Nat} {g : List Triple} {u : String} {b : Nat}
    {th : Option String} (hg : graphBelow c g = true) (hb : b < c) :
    graphBelow c (addThemePhase g (Node.uri u) b th).1 = true := by
  have hbn : nodeBelow c (Node.bnode b) = true := by
    simp [nodeBelow, hb]
  unfold addThemePhase
  by_cases ht : truthy th = true
  · rw [if_pos ht]
    refine graphBelow_addT (graphBelow_addT (graphBelow_addT hg ?_) ?_)
      (tripleBelow_no_bnode hbn)
    · simp [tripleBelow, nodeBelow, hb]
    · simp [tripleBelow, nodeBelow, hb]
  · rw [if_neg ht]
    exact hg

theorem graphBelow_addIssuedPhase {c : Nat} {g : List Triple} {u : String}
    {v : Option String} (hg : graphBelow c g = true) :
    graphBelow c (addIssuedPhase g (Node.uri u) v) = true := by
  unfold addIssuedPhase
  by_cases hi : truthy v = true
  · rw [if_pos hi]
    exact graphBelow_addT hg (tripleBelow_no_bnode rfl)
  · rw [if_neg hi]
    exact hg

-- The write phase never writes an rdfs:label triple: the label view of
-- the store (what the term resolver queries) v invariant.

theorem labelView_addKeywords {g : List Triple} {d : Node} {ks : List String} :
    (addKeywords g d ks).filter labP = g.filter labP := by
  induction ks generalizing g with
  | nil => rfl
  | cons k ks ih =>
    rw [addKeywords_cons]
    exact ih.trans (filter_addT_neg rfl)

theorem labelView_termStep {g : List Triple} {d : Node} {t : String} :
    (termStep g d t).filter labP = g.filter labP :=
  (filter_addT_neg rfl).trans (filter_addT_neg rfl)

theorem labelView_addBusinessTerms {g : List Triple} {d : Node} {ts : List String} :
    (addBusinessTerms g d ts).filter labP = g.filter labP := by
  induction ts generalizing g with
  | nil => rfl
  | cons t ts ih =>
    rw [addBusinessTerms_cons]
    exact ih.trans labelView_termStep

theorem labelView_btStep {g : List Triple} {fn : Node} {bt : String} :
    (btStep g fn bt).filter labP = g.filter labP := by
  unfold btStep
  cases findLabelMatches g bt with
  | nil => rfl
  | cons m ms => exact (filter_addT_neg rfl).trans (filter_addT_neg rfl)

theorem labelView_addFieldBTs {g : List Triple} {fn : Node} {bs : List String} :
    (addFieldBTs g fn bs).filter labP = g.filter labP := by
  induction bs generalizing g with
  | nil => rfl
  | cons b bs ih =>
    rw [addFieldBTs_cons]
    exact ih.trans labelView_btStep

theorem labelView_addField {g : List Triple} {d : Node} {b : Nat} {f : FieldSpec} :
    (addField g d b f).filter labP = g.filter labP := by
  unfold addField
  cases f.description with
  | none =>
    cases f.business_terms with
    | none =>
      exact (filter_addT_neg rfl).trans ((filter_addT_neg rfl).trans
        ((filter_addT_neg rfl).trans (filter_addT_neg rfl)))
    | some bts =>
      exact (filter_addT_neg rfl).trans (labelView_addFieldBTs.trans
        ((filter_addT_neg rfl).trans ((filter_addT_neg rfl).trans (filter_addT_neg rfl))))
  | some dsc =>
    cases f.business_terms with
    | none =>
      exact (filter_addT_neg rfl).trans ((filter_addT_neg rfl).trans
        ((filter_addT_neg rfl).trans ((filter_addT_neg rfl).trans (filter_addT_neg rfl))))
    | some bts =>
      exact (filter_addT_neg rfl).trans (labelView_addFieldBTs.trans
        ((filter_addT_neg rfl).trans ((filter_addT_neg rfl).trans
          ((filter_addT_neg rfl).trans (filter_addT_neg rfl)))))

theorem labelView_addFields {g : List Triple} {d : Node} {b : Nat} {fs : List FieldSpec} :
    (addFields g d b fs).1.filter labP = g.filter labP := by
  induction fs generalizing g b with
  | nil => rfl
  | cons f fs ih =>
    rw [addFields_cons]
    exact ih.trans labelView_addField

theorem labelView_addThemePhase {g : List Triple} {d : Node} {c : Nat} {th : Option String} :
    (addThemePhase g d c th).1.filter labP = g.filter labP := by
  unfold addThemePhase
  by_cases ht : truthy th = true
  · rw [if_pos ht]
    exact (filter_addT_neg rfl).trans ((filter_addT_neg rfl).trans (filter_addT_neg rfl))
  · rw [if_neg ht]

theorem labelView_addIssuedPhase {g : List Triple} {d : Node} {is : Option String} :
    (addIssuedPhase g d is).filter labP = g.filter labP := by
  unfold addIssuedPhase
  by_cases hi : truthy is = true
  · rw [if_pos hi]
    exact filter_addT_neg rfl
  · rw [if_neg hi]

theorem labelView_add_dataset_body {st : DCATCatalog}
    {identifier title description : String} {theme : Option String} {keywords : List String}
    {issued : Option String} {business_terms : List String} {fields : List FieldSpec} :
    (add_dataset_body st identifier title description theme keywords issued business_terms
      fields).1.g.filter labP = st.g.filter labP := by
  unfold add_dataset_body
  exact (filter_addT_neg rfl).trans (labelView_addFields.trans
    (labelView_addBusinessTerms.trans (labelView_addIssuedPhase.trans
      (labelView_addKeywords.trans (labelView_addThemePhase.trans
        ((filter_addT_neg rfl).trans ((filter_addT_neg rfl).trans
          (filter_addT_neg rfl))))))))

-- The hasField view: the only hasField edges the write phase produces are
-- one fresh-blank-node edge per field, in order.

theorem hfP_explicit_pred {D s o : Node} {p : String} (hp : ¬ p = fieldHasField) :
    hfP D ⟨s, Node.uri p, o⟩ = false := by
  simp [hfP, hp]

theorem hfP_self {u : String} {o : Node} :
    hfP (Node.uri u) ⟨Node.uri u, Node.uri fieldHasField, o⟩ = true := by
  simp [hfP]

theorem hfView_addKeywords {D : Node} {g : List Triple} {ks : List String} :
    (addKeywords g D ks).filter (hfP D) = g.filter (hfP D) := by
  induction ks generalizing g with
  | nil => rfl
  | cons k ks ih =>
    rw [addKeywords_cons]
    exact ih.trans (filter_addT_neg (hfP_explicit_pred (by decide)))

theorem hfView_termStep {D : Node} {g : List Triple} {t : String} :
    (termStep g D t).filter (hfP D) = g.filter (hfP D) :=
  (filter_addT_neg (hfP_explicit_pred (by decide))).trans
    (filter_addT_neg (hfP_explicit_pred (by decide)))

theorem hfView_addBusinessTerms {D : Node} {g : List Triple} {ts : List String} :
    (addBusinessTerms g D ts).filter (hfP D) = g.filter (hfP D) := by
  induction ts generalizing g with
  | nil => rfl
  | cons t ts ih =>
    rw [addBusinessTerms_cons]
    exact ih.trans hfView_termStep

theorem hfView_btStep {D fn : Node} {g : List Triple} {bt : String} :
    (btStep g fn bt).filter (hfP D) = g.filter (hfP D) := by
  unfold btStep
  cases findLabelMatches g bt with
  | nil => rfl
  | cons m ms =>
    exact (filter_addT_neg (hfP_explicit_pred (by decide))).trans
      (filter_addT_neg (hfP_explicit_pred (by decide)))

theorem hfView_addFieldBTs {D fn : Node} {g : List Triple} {bs : List String} :
    (addFieldBTs g fn bs).filter (hfP D) = g.filter (hfP D) := by
  induction bs generalizing g with
  | nil => rfl
  | cons b bs ih =>
    rw [addFieldBTs_cons]
    exact ih.trans hfView_btStep

theorem hfView_addThemePhase {D : Node} {g : List Triple} {c : Nat} {th : Option String} :
    (addThemePhase g D c th).1.filter (hfP D) = g.filter (hfP D) := by
  unfold addThemePhase
  by_cases ht : truthy th = true
  · rw [if_pos ht]
    exact (filter_addT_neg (hfP_explicit_pred (by decide))).trans
      ((filter_addT_neg (hfP_explicit_pred (by decide))).trans
        (filter_addT_neg (hfP_explicit_pred (by decide))))
  · rw [if_neg ht]

theorem hfView_addIssuedPhase {D : Node} {g : List Triple} {is : Option String} :
    (addIssuedPhase g D is).filter (hfP D) = g.filter (hfP D) := by
  unfold addIssuedPhase
  by_cases hi : truthy is = true
  · rw [if_pos hi]
    exact filter_addT_neg (hfP_explicit_pred (by decide))
  · rw [if_neg hi]

theorem addThemePhase_counter {g : List Triple} {d : Node} {c : Nat} {th : Option String} :
    (addThemePhase g d c th).2 = c + (if truthy th then 1 else 0) := by
  unfold addThemePhase
  by_cases ht : truthy th = true
  · rw [if_pos ht, if_pos ht]
  · rw [if_neg ht, if_neg ht]
    rfl

theorem graphBelow_addThemePhase_self {u : String} {g : List Triple} {c : Nat}
    {v : Option String} (hg : graphBelow c g = true) :
    graphBelow (addThemePhase g (Node.uri u) c v).2
      (addThemePhase g (Node.uri u) c v).1 = true := by
  unfold addThemePhase
  by_cases ht : truthy v = true
  · rw [if_pos ht]
    have hbn : nodeBelow (c + 1) (Node.bnode c) = true := by
      simp [nodeBelow]
    refine graphBelow_addT (graphBelow_addT (graphBelow_addT
      (graphBelow_mono (Nat.le_succ c) hg) ?_) ?_) (tripleBelow_no_bnode hbn)
    · simp only [tripleBelow, Bool.and_eq_true]
      exact ⟨⟨hbn, rfl⟩, rfl⟩
    · simp only [tripleBelow, Bool.and_eq_true]
      exact ⟨⟨hbn, rfl⟩, rfl⟩
  · rw [if_neg ht]
    exact hg

theorem FV_addField {u : String} {g : List Triple} {b : Nat} {f : FieldSpec}
    (hb : graphBelow b g = true) :
    (addField g (Node.uri u) b f).filter (hfP (Node.uri u)) =
      g.filter (hfP (Node.uri u)) ++
        [⟨Node.uri u, Node.uri fieldHasField, Node.bnode b⟩] := by
  have htb : tripleBelow b (⟨Node.uri u, Node.uri fieldHasField, Node.bnode b⟩ : Triple)
      = false := by
    simp [tripleBelow, nodeBelow]
  have hnm : (⟨Node.uri u, Node.uri fieldHasField, Node.bnode b⟩ : Triple) ∉
      g.filter (hfP (Node.uri u)) :=
    fun hc => not_mem_of_graphBelow hb htb (List.mem_filter.mp hc).1
  have hinner : ∀ h' : List Triple,
      h'.filter (hfP (Node.uri u)) = g.filter (hfP (Node.uri u)) →
      (addT h' (⟨Node.uri u, Node.uri fieldHasField, Node.bnode b⟩ : Triple)).filter
          (hfP (Node.uri u)) =
        g.filter (hfP (Node.uri u)) ++
          [⟨Node.uri u, Node.uri fieldHasField, Node.bnode b⟩] := by
    intro h' hh
    rw [filter_addT_pos hfP_self, hh, addT_eq_append hnm]
  unfold addField
  cases f.description with
  | none =>
    cases f.business_terms with
    | none =>
      exact hinner _ ((filter_addT_neg (hfP_explicit_pred (by decide))).trans
        ((filter_addT_neg (hfP_explicit_pred (by decide))).trans
          (filter_addT_neg (hfP_explicit_pred (by decide)))))
    | some bts =>
      exact hinner _ (hfView_addFieldBTs.trans
        ((filter_addT_neg (hfP_explicit_pred (by decide))).trans
          ((filter_addT_neg (hfP_explicit_pred (by decide))).trans
            (filter_addT_neg (hfP_explicit_pred (by decide))))))
  | some dsc =>
    cases f.business_terms with
    | none =>
      exact hinner _ ((filter_addT_neg (hfP_explicit_pred (by decide))).trans
        ((filter_addT_neg (hfP_explicit_pred (by decide))).trans
          ((filter_addT_neg (hfP_explicit_pred (by decide))).trans
            (filter_addT_neg (hfP_explicit_pred (by decide))))))
    | some bts =>
      exact hinner _ (hfView_addFieldBTs.trans
        ((filter_addT_neg (hfP_explicit_pred (by decide))).trans
          ((filter_addT_neg (hfP_explicit_pred (by decide))).trans
            ((filter_addT_neg (hfP_explicit_pred (by decide))).trans
              (filter_addT_neg (hfP_explicit_pred (by decide)))))))

theorem FV_addFields {u : String} {g : List Triple} {b : Nat} {l : List FieldSpec}
    (hb : graphBelow b g = true) :
    (addFields g (Node.uri u) b l).1.filter (hfP (Node.uri u)) =
      g.filter (hfP (Node.uri u)) ++ (List.range l.length).map
        (fun i => ⟨Node.uri u, Node.uri fieldHasField, Node.bnode (b + i)⟩) ∧
    (addFields g (Node.uri u) b l).2 = b + l.length ∧
    graphBelow (b + l.length) (addFields g (Node.uri u) b l).1 = true := by
  induction l generalizing g b with
  | nil => exact ⟨(List.append_nil _).symm, rfl, hb⟩
  | cons f l ih =>
    rw [addFields_cons]
    have hg1 : graphBelow (b + 1) (addField g (Node.uri u) b f) = true :=
      graphBelow_addField (graphBelow_mono (Nat.le_succ b) hb) (Nat.lt_succ_self b)
    obtain ⟨e1, e2, e3⟩ := ih (b := b + 1) hg1
    have htail : ((List.range (l.length + 1)).map
        (fun i => (⟨Node.uri u, Node.uri fieldHasField, Node.bnode (b + i)⟩ : Triple))) =
        (⟨Node.uri u, Node.uri fieldHasField, Node.bnode b⟩ : Triple) ::
        (List.range l.length).map
          (fun i => (⟨Node.uri u, Node.uri fieldHasField,
            Node.bnode (b + 1 + i)⟩ : Triple)) := by
      rw [List.range_succ_eq_map, List.map_cons, List.map_map]
      congr 1
      apply List.map_congr_left
      intro a _
      simp only [Function.comp_apply, Triple.mk.injEq, Node.bnode.injEq, true_and]
      omega
    refine ⟨?_, ?_, ?_⟩
    · rw [e1, FV_addField hb, List.length_cons, htail, List.append_assoc,
        List.singleton_append]
    · rw [e2, List.length_cons]
      omega
    · rw [List.length_cons, show b + (l.length + 1) = b + 1 + l.length by omega]
      exact e3

theorem FV_add_dataset_body {s : DCATCatalog} {q t d : String}
    {v : Option String} {k : List String} {j : Option String}
    {b : List String} {l : List FieldSpec}
    (hb : graphBelow s.nextB s.g = true) :
    (add_dataset_body s q t d v k j b
        l).1.g.filter (hfP (datasetURI q)) =
      s.g.filter (hfP (datasetURI q)) ++
        (List.range l.length).map (fun i => ⟨datasetURI q,
          Node.uri fieldHasField,
          Node.bnode (s.nextB + (if truthy v then 1 else 0) + i)⟩) ∧
    (add_dataset_body s q t d v k j b
        l).1.nextB =
      s.nextB + (if truthy v then 1 else 0) + l.length ∧
    graphBelow
      (add_dataset_body s q t d v k j b
        l).1.nextB
      (add_dataset_body s q t d v k j b
        l).1.g = true := by
  simp only [add_dataset_body, datasetURI, DCATCatalog.catalog]
  have hg3 : graphBelow s.nextB (addT (addT (addT s.g
      ⟨Node.uri (DATASET_NS ++ q), Node.uri rdfType, Node.uri dcatDatasetClass⟩)
      ⟨Node.uri (DATASET_NS ++ q), Node.uri dctTitle, Node.lit t none⟩)
      ⟨Node.uri (DATASET_NS ++ q), Node.uri dctDescription,
        Node.lit d none⟩) = true :=
    graphBelow_addT (graphBelow_addT (graphBelow_addT hb (tripleBelow_no_bnode rfl))
      (tripleBelow_no_bnode rfl)) (tripleBelow_no_bnode rfl)
  have hf3 : (addT (addT (addT s.g
      ⟨Node.uri (DATASET_NS ++ q), Node.uri rdfType, Node.uri dcatDatasetClass⟩)
      ⟨Node.uri (DATASET_NS ++ q), Node.uri dctTitle, Node.lit t none⟩)
      ⟨Node.uri (DATASET_NS ++ q), Node.uri dctDescription,
        Node.lit d none⟩).filter (hfP (Node.uri (DATASET_NS ++ q))) =
      s.g.filter (hfP (Node.uri (DATASET_NS ++ q))) :=
    (filter_addT_neg (hfP_explicit_pred (by decide))).trans
      ((filter_addT_neg (hfP_explicit_pred (by decide))).trans
        (filter_addT_neg (hfP_explicit_pred (by decide))))
  rw [addThemePhase_counter]
  have hgTh := graphBelow_addThemePhase_self (v := v)
    (u := DATASET_NS ++ q) hg3
  rw [addThemePhase_counter] at hgTh
  have hgkw := graphBelow_addKeywords (u := DATASET_NS ++ q) (l := k) hgTh
  have hgis := graphBelow_addIssuedPhase (u := DATASET_NS ++ q) (v := j) hgkw
  have hgbt := graphBelow_addBusinessTerms (u := DATASET_NS ++ q)
    (l := b) hgis
  obtain ⟨e1, e2, e3⟩ := FV_addFields (l := l) hgbt
  refine ⟨?_, ?_, ?_⟩
  · rw [filter_addT_neg (hfP_explicit_pred (by decide)), e1, hfView_addBusinessTerms,
      hfView_addIssuedPhase, hfView_addKeywords, hfView_addThemePhase, hf3]
  · rw [e2]
  · rw [e2]
    exact graphBelow_addT e3 (tripleBelow_no_bnode rfl)

-- Helpers for the initial states of the two runs: the delete phase
-- leaves no dataset-subject triples, keeps blank nodes bounded, and
-- preserves the label view.

theorem filter_sub_filter {p q : Triple → Bool} {l : List Triple}
    (h : ∀ t ∈ l, p t = true → q t = true) : (l.filter q).filter p = l.filter p := by
  induction l with
  | nil => rfl
  | cons a l ih =>
    have ih' := ih (fun t ht => h t (List.mem_cons_of_mem a ht))
    by_cases hp : p a = true
    · have hq := h a (List.mem_cons_self a l) hp
      rw [List.filter_cons_of_pos hq, List.filter_cons_of_pos hp, List.filter_cons_of_pos hp,
        ih']
    · have hp' : p a = false := Bool.not_eq_true _ ▸ Bool.of_not_eq_true hp
      by_cases hq : q a = true
      · rw [List.filter_cons_of_pos hq, List.filter_cons_of_neg hp, List.filter_cons_of_neg hp,
          ih']
      · rw [List.filter_cons_of_neg hq, List.filter_cons_of_neg hp, ih']

theorem delete_dataset_nextB {st : DCATCatalog} {identifier : String} :
    (delete_dataset st identifier).nextB = st.nextB := rfl

theorem delete_dataset_catalog_uri {st : DCATCatalog} {identifier : String} :
    (delete_dataset st identifier).catalog_uri = st.catalog_uri := rfl

theorem graphBelow_delete {st : DCATCatalog} {identifier : String} {c : Nat}
    (h : graphBelow c st.g = true) :
    graphBelow c (delete_dataset st identifier).g = true := by
  simp only [delete_dataset]
  exact graphBelow_filter (graphBelow_filter (graphBelow_filter (graphBelow_filter
    (graphBelow_filter h))))

theorem labelView_delete {st : DCATCatalog} {identifier : String}
    (h : ∀ t ∈ st.g, labP t = true →
      t.s ≠ datasetURI identifier ∧ t.s ∉ fieldsOf st.g (datasetURI identifier)) :
    (delete_dataset st identifier).g.filter labP = st.g.filter labP := by
  simp only [delete_dataset]
  refine (filter_sub_filter ?_).trans ((filter_sub_filter ?_).trans
    ((filter_sub_filter ?_).trans ((filter_sub_filter ?_).trans (filter_sub_filter ?_))))
  · intro t _ hl
    rw [decide_eq_true_eq]
    intro heq
    rw [heq] at hl
    exact Bool.noConfusion hl
  · intro t ht hl
    have hmem : t ∈ st.g :=
      (List.mem_filter.mp (List.mem_filter.mp (List.mem_filter.mp ht).1).1).1
    rw [decide_eq_true_eq]
    exact (h t hmem hl).1
  · intro t ht hl
    have hmem : t ∈ st.g := (List.mem_filter.mp (List.mem_filter.mp ht).1).1
    rw [decide_eq_true_eq]
    rintro ⟨hs, -⟩
    exact (h t hmem hl).1 hs
  · intro t ht hl
    have hmem : t ∈ st.g := (List.mem_filter.mp ht).1
    rw [decide_eq_true_eq]
    rintro ⟨hs, -⟩
    exact (h t hmem hl).1 hs
  · intro t ht hl
    rw [decide_eq_true_eq]
    exact (h t ht hl).2

theorem hf_filter_empty {g : List Triple} {D : Node} (h : ∀ t ∈ g, t.s ≠ D) :
    g.filter (hfP D) = [] := by
  refine List.filter_eq_nil_iff.mpr (fun t ht hc => ?_)
  rw [hfP, decide_eq_true_eq] at hc
  exact h t ht hc.1

theorem sub_filter_empty {g : List Triple} {D : Node} {FF : List Node} {c : Nat}
    (hsubj : ∀ t ∈ g, t.s ≠ D) (hg : graphBelow c g = true)
    (hFF : ∀ x ∈ FF, ∃ n, c ≤ n ∧ x = Node.bnode n) :
    g.filter (subP FF D) = [] := by
  refine List.filter_eq_nil_iff.mpr (fun t ht hc => ?_)
  rw [subP, decide_eq_true_eq] at hc
  rcases hc with hc | hc
  · exact hsubj t ht hc
  · obtain ⟨n, hn, he⟩ := hFF t.s hc
    rw [graphBelow, List.all_eq_true] at hg
    have hns0 := hg t ht
    rw [tripleBelow, Bool.and_eq_true, Bool.and_eq_true] at hns0
    have hns := hns0.1.1
    rw [he, nodeBelow, decide_eq_true_eq] at hns
    omega

theorem fieldsOf_eq_filter {g : List Triple} {D : Node} :
    fieldsOf g D = (g.filter (hfP D)).map Triple.o := rfl

theorem add_dataset_body_catalog_uri {st : DCATCatalog}
    {identifier title description : String} {theme : Option String} {keywords : List String}
    {issued : Option String} {business_terms : List String} {fields : List FieldSpec} :
    (add_dataset_body st identifier title description theme keywords issued business_terms
      fields).1.catalog_uri = st.catalog_uri := rfl

theorem typing_mem_add_dataset_body {st : DCATCatalog}
    {identifier title description : String} {theme : Option String} {keywords : List String}
    {issued : Option String} {business_terms : List String} {fields : List FieldSpec} :
    (⟨datasetURI identifier, Node.uri rdfType, Node.uri dcatDatasetClass⟩ : Triple) ∈
      (add_dataset_body st identifier title description theme keywords issued business_terms
        fields).1.g := by
  unfold add_dataset_body
  exact mem_addT_of_mem (mem_addFields_of_mem (mem_addBusinessTerms_of_mem
    (mem_addIssuedPhase_of_mem (mem_addKeywords_of_mem (mem_addThemePhase_of_mem
      (mem_addT_of_mem (mem_addT_of_mem mem_addT_self)))))))

theorem upsert_base_facts {st : DCATCatalog} {identifier : String}
    (hfresh : graphBelow st.nextB st.g = true)
    (hd : dataset_exists st identifier = true ∨ ∀ t ∈ st.g, t.s ≠ datasetURI identifier) :
    (∀ t ∈ (if dataset_exists st identifier then delete_dataset st identifier else st).g,
      t.s ≠ datasetURI identifier) ∧
    (if dataset_exists st identifier then delete_dataset st identifier else st).nextB =
      st.nextB ∧
    (if dataset_exists st identifier then delete_dataset st identifier else st).catalog_uri =
      st.catalog_uri ∧
    graphBelow st.nextB
      (if dataset_exists st identifier then delete_dataset st identifier else st).g
      = true := by
  by_cases hex : dataset_exists st identifier = true
  · rw [if_pos hex]
    refine ⟨?_, rfl, rfl, graphBelow_delete hfresh⟩
    intro t ht
    exact (mem_delete_dataset.mp ht).2.1
  · rw [if_neg hex]
    refine ⟨?_, rfl, rfl, hfresh⟩
    rcases hd with hd | hd
    · exact absurd hd hex
    · exact hd

theorem subtreeTriples_eq_filter {st : DCATCatalog} {identifier : String} :
    subtreeTriples st identifier =
      st.g.filter (subP (fieldsOf st.g (datasetURI identifier)) (datasetURI identifier)) :=
  rfl

theorem upsert_twice_master {base₁ : DCATCatalog}
    {identifier title description : String} {theme : Option String} {keywords : List String}
    {issued : Option String} {business_terms : List String} {fields : List FieldSpec}
    (hsubj : ∀ t ∈ base₁.g, t.s ≠ datasetURI identifier)
    (hfresh : graphBelow base₁.nextB base₁.g = true) :
    subtreeTriples (add_dataset
        (add_dataset_body base₁ identifier title description theme keywords issued
          business_terms fields).1 identifier title description theme keywords issued
        business_terms fields).1 identifier =
      (subtreeTriples (add_dataset_body base₁ identifier title description theme keywords
          issued business_terms fields).1 identifier).map
        (shiftTriple ((if truthy theme then 1 else 0) + fields.length)) ∧
    fieldsOf (add_dataset
        (add_dataset_body base₁ identifier title description theme keywords issued
          business_terms fields).1 identifier title description theme keywords issued
        business_terms fields).1.g (datasetURI identifier) =
      (fieldsOf (add_dataset_body base₁ identifier title description theme keywords issued
          business_terms fields).1.g (datasetURI identifier)).map
        (shiftNode ((if truthy theme then 1 else 0) + fields.length)) := by
  obtain ⟨e1, e2, e3⟩ := FV_add_dataset_body (s := base₁) (q := identifier)
    (t := title) (d := description) (v := theme) (k := keywords)
    (j := issued) (b := business_terms) (l := fields) hfresh
  have hfempty : base₁.g.filter (hfP (datasetURI identifier)) = [] := hf_filter_empty hsubj
  rw [hfempty, List.nil_append] at e1
  have hex1 : dataset_exists
      (add_dataset_body base₁ identifier title description theme keywords issued
        business_terms fields).1 identifier = true :=
    dataset_exists_iff.mpr typing_mem_add_dataset_body
  have hS2 : add_dataset
      (add_dataset_body base₁ identifier title description theme keywords issued
        business_terms fields).1 identifier title description theme keywords issued
      business_terms fields =
      add_dataset_body (delete_dataset
        (add_dataset_body base₁ identifier title description theme keywords issued
          business_terms fields).1 identifier) identifier title description theme keywords
        issued business_terms fields := by
    simp [add_dataset, hex1]
  have hsubj2 : ∀ t ∈ (delete_dataset
      (add_dataset_body base₁ identifier title description theme keywords issued
        business_terms fields).1 identifier).g, t.s ≠ datasetURI identifier :=
    fun t ht => (mem_delete_dataset.mp ht).2.1
  have hfresh2 : graphBelow
      (add_dataset_body base₁ identifier title description theme keywords issued
        business_terms fields).1.nextB
      (delete_dataset (add_dataset_body base₁ identifier title description theme keywords
        issued business_terms fields).1 identifier).g = true := graphBelow_delete e3
  obtain ⟨f1, f2, f3⟩ := FV_add_dataset_body (s := delete_dataset
      (add_dataset_body base₁ identifier title description theme keywords issued
        business_terms fields).1 identifier) (q := identifier) (t := title)
    (d := description) (v := theme) (k := keywords) (j := issued)
    (b := business_terms) (l := fields) hfresh2
  have hfempty2 : (delete_dataset
      (add_dataset_body base₁ identifier title description theme keywords issued
        business_terms fields).1 identifier).g.filter (hfP (datasetURI identifier)) = [] :=
    hf_filter_empty hsubj2
  rw [hfempty2, List.nil_append] at f1
  rw [show (delete_dataset (add_dataset_body base₁ identifier title description theme
      keywords issued business_terms fields).1 identifier).nextB =
      (add_dataset_body base₁ identifier title description theme keywords issued
        business_terms fields).1.nextB from rfl, e2] at f1
  set θ := (if truthy theme then 1 else 0) with hθ
  have hFF1 : fieldsOf (add_dataset_body base₁ identifier title description theme keywords
      issued business_terms fields).1.g (datasetURI identifier) =
      (List.range fields.length).map (fun i => Node.bnode (base₁.nextB + θ + i)) := by
    rw [fieldsOf_eq_filter, e1, List.map_map]
    rfl
  have hFF2 : fieldsOf (add_dataset_body (delete_dataset
      (add_dataset_body base₁ identifier title description theme keywords issued
        business_terms fields).1 identifier) identifier title description theme keywords
      issued business_terms fields).1.g (datasetURI identifier) =
      (List.range fields.length).map
        (fun i => Node.bnode (base₁.nextB + θ + fields.length + θ + i)) := by
    rw [fieldsOf_eq_filter, f1, List.map_map]
    rfl
  have hFF : (List.range fields.length).map
      (fun i => Node.bnode (base₁.nextB + θ + fields.length + θ + i)) =
      ((List.range fields.length).map (fun i => Node.bnode (base₁.nextB + θ + i))).map
        (shiftNode (θ + fields.length)) := by
    rw [List.map_map]
    apply List.map_congr_left
    intro a _
    simp only [Function.comp_apply, shiftNode, Node.bnode.injEq]
    omega
  have lv1 : (add_dataset_body base₁ identifier title description theme keywords issued
      business_terms fields).1.g.filter labP = base₁.g.filter labP :=
    labelView_add_dataset_body
  have lv2 : (delete_dataset (add_dataset_body base₁ identifier title description theme
      keywords issued business_terms fields).1 identifier).g.filter labP =
      (add_dataset_body base₁ identifier title description theme keywords issued
        business_terms fields).1.g.filter labP := by
    apply labelView_delete
    intro t ht hl
    have hbase : t ∈ base₁.g := by
      have : t ∈ (add_dataset_body base₁ identifier title description theme keywords issued
          business_terms fields).1.g.filter labP := List.mem_filter.mpr ⟨ht, hl⟩
      rw [lv1] at this
      exact (List.mem_filter.mp this).1
    constructor
    · exact hsubj t hbase
    · rw [hFF1]
      intro hmem
      obtain ⟨i, _, he⟩ := List.mem_map.mp hmem
      rw [graphBelow, List.all_eq_true] at hfresh
      have hb0 := hfresh t hbase
      rw [tripleBelow, Bool.and_eq_true, Bool.and_eq_true] at hb0
      have hns := hb0.1.1
      rw [← he, nodeBelow, decide_eq_true_eq] at hns
      omega
  have hsim0 : SimR (datasetURI identifier) (θ + fields.length)
      ((List.range fields.length).map (fun i => Node.bnode (base₁.nextB + θ + i)))
      ((List.range fields.length).map
        (fun i => Node.bnode (base₁.nextB + θ + fields.length + θ + i)))
      base₁.g
      (delete_dataset (add_dataset_body base₁ identifier title description theme keywords
        issued business_terms fields).1 identifier).g := by
    refine ⟨fun _ => ?_, lv2.trans lv1, ?_⟩
    · have hz1 : base₁.g.filter (subP ((List.range fields.length).map
          (fun i => Node.bnode (base₁.nextB + θ + i))) (datasetURI identifier)) = [] := by
        apply sub_filter_empty hsubj hfresh
        intro x hx
        obtain ⟨i, _, he⟩ := List.mem_map.mp hx
        exact ⟨base₁.nextB + θ + i, by omega, he.symm⟩
      have hg2 : graphBelow (base₁.nextB + θ + fields.length)
          (delete_dataset (add_dataset_body base₁ identifier title description theme
            keywords issued business_terms fields).1 identifier).g = true := by
        have := hfresh2
        rw [e2] at this
        exact this
      have hz2 : (delete_dataset (add_dataset_body base₁ identifier title description theme
          keywords issued business_terms fields).1 identifier).g.filter
          (subP ((List.range fields.length).map
            (fun i => Node.bnode (base₁.nextB + θ + fields.length + θ + i)))
            (datasetURI identifier)) = [] := by
        apply sub_filter_empty hsubj2 hg2
        intro x hx
        obtain ⟨i, _, he⟩ := List.mem_map.mp hx
        exact ⟨base₁.nextB + θ + fields.length + θ + i, by omega, he.symm⟩
      rw [hz1, hz2]
      rfl
    · rw [hfempty, hfempty2]
      rfl
  have hpair := SimR_add_dataset_body (x := base₁)
    (y := delete_dataset (add_dataset_body base₁ identifier title description theme
      keywords issued business_terms fields).1 identifier)
    (δ := θ + fields.length) (q := identifier) (t := title)
    (d := description) (v := theme) (k := keywords) (j := issued)
    (b := business_terms) (l := fields)
    (by rw [delete_dataset_catalog_uri, add_dataset_body_catalog_uri])
    (by rw [show (delete_dataset (add_dataset_body base₁ identifier title description theme
        keywords issued business_terms fields).1 identifier).nextB =
        (add_dataset_body base₁ identifier title description theme keywords issued
          business_terms fields).1.nextB from rfl, e2]; omega)
    hsim0
  constructor
  · rw [hS2, subtreeTriples_eq_filter, subtreeTriples_eq_filter, hFF2, hFF1]
    exact hpair.1.1 hFF
  · rw [hS2, hFF2, hFF1]
    exact hFF

/-- Claim C7: upserting the same payload twice yields, for the dataset's
subtree — the triples whose subject is the dataset node (attributes,
keyword literals, reference edges) or one of its field nodes — exactly
the once-upserted subtree with every blank node renamed by a fixed shift
(the number of blank nodes one call allocates), and the field-node lists
correspond under the same renaming: no duplicated fields and no keyword
literals beyond those the payload specifies.  The hypotheses are
invariants of every reachable store: blank nodes in the graph are below
the counter, and triples with the dataset URI as subject only exist when
the dataset is registered (typed). -/
theorem claim_C7_idempotent_upsert (st : DCATCatalog)
    (identifier title description : String) (theme : Option String) (keywords : List String)
    (issued : Option String) (business_terms : List String) (fields : List FieldSpec)
    (hfresh : graphBelow st.nextB st.g = true)
    (hd : dataset_exists st identifier = true ∨ ∀ t ∈ st.g, t.s ≠ datasetURI identifier) :
    subtreeTriples (add_dataset (add_dataset st identifier title description theme keywords
        issued business_terms fields).1 identifier title description theme keywords issued
        business_terms fields).1 identifier =
      (subtreeTriples (add_dataset st identifier title description theme keywords issued
          business_terms fields).1 identifier).map
        (shiftTriple ((if truthy theme then 1 else 0) + fields.length)) ∧
    fieldsOf (add_dataset (add_dataset st identifier title description theme keywords
        issued business_terms fields).1 identifier title description theme keywords issued
        business_terms fields).1.g (datasetURI identifier) =
      (fieldsOf (add_dataset st identifier title description theme keywords issued
          business_terms fields).1.g (datasetURI identifier)).map
        (shiftNode ((if truthy theme then 1 else 0) + fields.length)) := by
  obtain ⟨A1, A2, A3, A4⟩ := upsert_base_facts hfresh hd
  have hbase : graphBelow
      (if dataset_exists st identifier then delete_dataset st identifier else st).nextB
      (if dataset_exists st identifier then delete_dataset st identifier else st).g
      = true := by
    rw [A2]
    exact A4
  exact upsert_twice_master A1 hbase

/-- Witness for C7: a concrete payload with a theme, a keyword, a
dataset-level term and one field carrying a resolving business term,
upserted twice over the initialized catalog; the subtree after the second
call is the once-upserted subtree shifted by the two blank nodes a call
allocates. -/
theorem claim_C7_idempotent_upsert_witness :
    subtreeTriples (add_dataset (add_dataset catT1 "w7" "t" "de" (some "Th") ["k"] none
        ["BT"] [⟨"c", "string", none, some ["Legal Entity"]⟩]).1 "w7" "t" "de" (some "Th")
        ["k"] none ["BT"] [⟨"c", "string", none, some ["Legal Entity"]⟩]).1 "w7" =
      (subtreeTriples (add_dataset catT1 "w7" "t" "de" (some "Th") ["k"] none ["BT"]
          [⟨"c", "string", none, some ["Legal Entity"]⟩]).1 "w7").map
        (shiftTriple ((if truthy (some "Th") then 1 else 0) +
          ([(⟨"c", "string", none, some ["Legal Entity"]⟩ : FieldSpec)]).length)) :=
  (claim_C7_idempotent_upsert catT1 "w7" "t" "de" (some "Th") ["k"] none ["BT"]
    [⟨"c", "string", none, some ["Legal Entity"]⟩] (by decide) (Or.inr (by decide))).1
